import Mathlib

/-!
Verification of the i-slide web component (i-slide.js).

The development shallow-embeds the parts of the source that the analysed
properties depend on:

* pure helpers: the JS `parseInt(value, 10)` semantics, the PDF fragment
  regex `^(page=)?(\d+)$`, the HTML slide lookup, the scaling arithmetic
  of `scaleContent` and of the PDF branch of `#render`, the fallback
  markup of the catch branch of `#render`, and the response
  classification performed by `#fetch`;
* three small-step transition systems, one per concurrency concern:
  the cross-instance fetch of `#fetch` (deck cache + pendingFetch
  registry), the cross-instance dimension measurement of
  `#calculateHTMLDimensions` (pendingDimensions registry), and the
  per-instance fetch-and-render lifecycle of `#fetchAndRender`
  (cycle ids, planned flag, aria-busy, loaded, load events).

JavaScript is single threaded: code between two `await` points runs
atomically, and the scheduler interleaves those atomic segments.  Each
transition of the systems below is one such atomic segment; the
nondeterministic choice of the next enabled transition models the event
loop.  Machine numbers that matter here are small integers and
rationals, modelled as `Nat`, `Int` and `ℚ`; the JS `NaN` produced by
`parseInt` on unparseable input is modelled by `none` in `Option Int`.
-/

/-! ## JS `parseInt(value, 10)` -/

/-- Numeric value of a list of decimal digit characters. -/
def digitsVal (cs : List Char) : Nat :=
  cs.foldl (fun acc c => acc * 10 + (c.toNat - 48)) 0

/-- Model of JS `parseInt(value, 10)`: skip leading whitespace, read an
optional sign, then the longest prefix of decimal digits; the result is
`NaN` (modelled `none`) when that prefix is empty.  `parseInt` never
throws. -/
def jsParseInt (s : String) : Option Int :=
  let cs := s.data.dropWhile (fun c => c.isWhitespace)
  let signAndRest : Int × List Char :=
    match cs with
    | '-' :: r => (-1, r)
    | '+' :: r => (1, r)
    | _ => (1, cs)
  let ds := signAndRest.2.takeWhile (fun c => c.isDigit)
  if ds.isEmpty then none
  else some (signAndRest.1 * (digitsVal ds : Int))

/-- JS `parseInt` applied to a possibly-undefined value: `parseInt(undefined)`
stringifies the argument to `"undefined"` and yields `NaN`. -/
def jsParseIntOpt (s : Option String) : Option Int :=
  match s with
  | none => none
  | some str => jsParseInt str

/-- `defaultWidth` constant of i-slide.js. -/
def defaultWidth : Nat := 300

/-- `defaultAspectRatio` constant of i-slide.js (16/9). -/
def defaultAspectRatio : ℚ := 16 / 9

/-- Model of the `width` setter body: `this.#width = parseInt(value, 10)`.
The source wraps this in `try ... catch { this.#width = defaultWidth }`,
but JS `parseInt` returns `NaN` instead of throwing on unparseable input,
so the try branch always completes and the catch branch is unreachable;
the stored width is exactly the `parseInt` result (`none` models `NaN`). -/
def setWidthStored (value : String) : Option Int :=
  jsParseInt value

/-! ## Deck cache entries and the `#fetch` response classification -/

/-- Payload of a loaded PDF deck: what the render path reads from the
pdf.js document handle (`pdf.numPages` bounds `getPage`, `page.view[2]`
is the page width in points). -/
structure PdfDoc where
  numPages : Nat
  pageWidthPt : ℚ
deriving DecidableEq, Repr

/-- One `.slide` element of a parsed HTML deck, in document order, with
its element identifier when it has one. -/
structure SlideElem where
  elemId : Option String
deriving DecidableEq, Repr

/-- Payload of a parsed HTML deck: the ordered `.slide` elements of the
document produced by the external DOMParser collaborator. -/
structure HtmlDoc where
  slides : List SlideElem
deriving DecidableEq, Repr

/-- `DeckCacheEntry`: the three shapes of value that `#fetch` ever stores
in `cache[docUrl]` (type tags 'pdf', 'shower-2014' and 'error' in the
source). -/
inductive Entry
  | pdf (doc : PdfDoc)
  | shower (doc : HtmlDoc)
  | error (message : String)
deriving DecidableEq, Repr

/-- An HTTP response as consumed by `#fetch`: status, the
`Content-Type` header (`none` when the header is absent, in which case
`contentType.split` throws a TypeError) and the body text. -/
structure Response where
  status : Nat
  contentType : Option String
  body : String
deriving DecidableEq, Repr

/-- Outcome of `await fetch(docUrl)`: a response, or a rejection
(network/transport failure) carrying the error message. -/
inductive FetchResult
  | ok (resp : Response)
  | networkError (message : String)
deriving DecidableEq, Repr

/-- Environment of one run of the `#fetch` try block: the network
result, the result of the pdf.js `getDocument` load (when taken), and
the document produced by the external HTML parser (when taken). -/
structure FetchEnv where
  result : FetchResult
  pdfResult : Except String PdfDoc
  parsedDoc : HtmlDoc
deriving Repr

/-- Error message stored for a non-200 HTTP status (line 262 of the
source). -/
def httpErrorMessage (docUrl : String) (status : Nat) : String :=
  "Could not fetch slide deck " ++ docUrl ++
    " - HTTP status code received is " ++ toString status

/-- Error message stored by the catch branch of `#fetch` (line 309). -/
def caughtErrorMessage (docUrl errMessage : String) : String :=
  "Could not fetch slide deck " ++ docUrl ++ ": " ++ errMessage

/-- Engine message of the TypeError thrown by `contentType.split(';')`
when the Content-Type header is null. -/
def nullContentTypeMessage : String :=
  "contentType is null"

/-- The cache entry written by one complete run of the `#fetch` try /
catch / finally body, as a function of the environment.  Mirrors lines
257-310 of the source: non-200 status stores an error entry; a null
Content-Type header throws and is caught into an error entry; otherwise
the effective MIME type is `contentType.split(';')[0]`, the deck is
treated as PDF when the `type` attribute or the effective MIME type is
`application/pdf`, a pdf.js load failure is caught into an error entry,
and any other response is parsed as an HTML deck.  The function is
total: every path of the body stores exactly one entry. -/
def fetchOutcome (docUrl : String) (typeAttr : Option String) (env : FetchEnv) : Entry :=
  match env.result with
  | .networkError msg => .error (caughtErrorMessage docUrl msg)
  | .ok resp =>
    if resp.status ≠ 200 then
      .error (httpErrorMessage docUrl resp.status)
    else
      match resp.contentType with
      | none => .error (caughtErrorMessage docUrl nullContentTypeMessage)
      | some ct =>
        let effectiveMimeType := (ct.splitOn ";").headD ""
        let isPDF := typeAttr = some "application/pdf" ∨ effectiveMimeType = "application/pdf"
        if isPDF then
          match env.pdfResult with
          | .ok doc => .pdf doc
          | .error msg => .error (caughtErrorMessage docUrl msg)
        else
          .shower env.parsedDoc

/-! ## PDF fragment parsing (`#render`, line 396) -/

/-- The characters of the literal `page=`. -/
def pageEqChars : List Char := ['p', 'a', 'g', 'e', '=']

/-- Match of the regex `^(page=)?(\d+)$` on a fragment, returning
`parseInt(m[2], 10)`: the optional `page=` prologue is dropped and the
remainder must be a nonempty string of decimal digits. -/
def parsePDFFragmentChars (cs : List Char) : Option Nat :=
  let rest := if cs.take 5 = pageEqChars then cs.drop 5 else cs
  if rest ≠ [] ∧ rest.all (fun c => c.isDigit) then some (digitsVal rest) else none

/-- String wrapper of `parsePDFFragmentChars`. -/
def parsePDFFragment (s : String) : Option Nat :=
  parsePDFFragmentChars s.data

/-! ## HTML slide lookup (`#render`, lines 436-438) -/

/-- JS array indexing `slides[i - 1]` with an `Int` (or `NaN`) index:
a `NaN`, zero or negative 1-based index reads `undefined`. -/
def slideAt (slides : List SlideElem) (idx : Option Int) : Option SlideElem :=
  match idx with
  | none => none
  | some i => if 1 ≤ i then slides.get? (i - 1).toNat else none

/-- The slide lookup of the HTML branch of `#render`:
`doc.querySelectorAll('.slide')[parseInt(slideId, 10) - 1]`.  The
fragment is interpreted purely as a 1-based index; element identifiers
are never consulted. -/
def extractSlide (slides : List SlideElem) (frag : Option String) : Option SlideElem :=
  slideAt slides (jsParseIntOpt frag)

/-- Modelled from the spec (for comparison with `extractSlide`): locate
the slide by element identifier matching the fragment, falling back to
the Nth element of the ordered slide sequence (1-based) when no
identifier match exists. -/
def extractSlideSpecModel (slides : List SlideElem) (frag : String) : Option SlideElem :=
  match slides.find? (fun sl => sl.elemId = some frag) with
  | some sl => some sl
  | none => slideAt slides (jsParseInt frag)

/-! ## Scaling (`scaleContent` lines 487-493, PDF branch line 414) -/

/-- `scaleContent` of the HTML branch of `#render`: given the component
width and the intrinsic deck dimensions recorded on the cache entry,
compute `scale = width / cacheEntry.width` and
`height = cacheEntry.height * scale`; the first component is the scale
applied to the slide body, the second the height given to the host. -/
def scaleContent (width intrinsicW intrinsicH : ℚ) : ℚ × ℚ :=
  let scale := width / intrinsicW
  (scale, intrinsicH * scale)

/-- Scale of the PDF branch of `#render`:
`(width / page.view[2]) * 72/96`, converting page points to CSS
pixels. -/
def pdfScale (width pageWidthPt : ℚ) : ℚ :=
  (width / pageWidthPt) * (72 / 96)

/-! ## Fallback content (`#render` catch branch, lines 513-518) -/

/-- The hyperlink markup rendered when the host has no inner fallback
content: `<a href="${this.src}">${this.src}</a>`. -/
def linkMarkup (src : String) : String :=
  "<a href=\"" ++ src ++ "\">" ++ src ++ "</a>"

/-- Model of JS `String.prototype.trim`: strip leading and trailing
whitespace. -/
def jsTrim (s : String) : String :=
  String.mk (((s.data.dropWhile Char.isWhitespace).reverse.dropWhile
    Char.isWhitespace).reverse)

/-- Content installed by the catch branch of `#render`:
`this.innerHTML.trim() || linkMarkup` (the trimmed inner markup when it
is nonempty, else the link). -/
def fallbackMarkup (src innerHTML : String) : String :=
  if jsTrim innerHTML = "" then linkMarkup src else jsTrim innerHTML

/-! ## The `#render` content decision -/

/-- The document URL part of `this.#src.split('#')`: the prefix before
the first `#`. -/
def docUrlOf (src : String) : String :=
  String.mk (src.data.takeWhile (fun c => c ≠ '#'))

/-- The fragment part of `this.#src.split('#')` (element 1 of the split
array): the text between the first `#` and the next `#` or the end;
`undefined` (modelled `none`) when the source has no `#`. -/
def fragOf (src : String) : Option String :=
  match src.data.dropWhile (fun c => c ≠ '#') with
  | [] => none
  | _ :: rest => some (String.mk (rest.takeWhile (fun c => c ≠ '#')))

/-- What a successful run of the `#render` try block draws: a PDF page
at a scale, an HTML slide scaled to the recorded intrinsic dimensions,
or an HTML slide rendered off-screen at the default-aspect-ratio height
while its one-time measurement is pending (lines 464-509). -/
inductive RenderBody
  | pdfPage (pageNumber : Nat) (scale : ℚ)
  | htmlSlide (scale height : ℚ)
  | htmlSlideDeferred (height : ℚ)
deriving DecidableEq, Repr

/-- Engine message of the TypeError thrown by reading `.type` of an
absent cache entry. -/
def undefinedEntryMessage : String :=
  "cacheEntry is undefined"

/-- Engine message of `slideId.match` when the source has no fragment. -/
def undefinedFragmentMessage : String :=
  "slideId is undefined"

/-- Rejection message of `pdf.getPage` for an out-of-range page. -/
def invalidPageMessage : String :=
  "Invalid page request"

/-- The try block of `#render` (lines 388-512): either what gets drawn,
or the thrown error, as a function of the instance state (`src`, width),
the cache entry for the deck URL and the intrinsic dimensions recorded
on that entry (`none` when not yet measured; a recorded width of zero is
falsy, so measurement is considered missing and the slide is scaled
after a fresh measurement).  The `measured` flag of `htmlSlide` records
whether the entry dimensions were already known (truthy) at render
time. -/
def renderTry (src : String) (width : ℚ) (entry : Option Entry)
    (dims : Option (Nat × Nat)) : Except String RenderBody :=
  match entry with
  | none => .error undefinedEntryMessage
  | some (.error m) => .error m
  | some (.pdf doc) =>
    match fragOf src with
    | none => .error undefinedFragmentMessage
    | some sid =>
      match parsePDFFragment sid with
      | none => .error ("Unrecognized PDF fragment " ++ sid)
      | some pageNumber =>
        if 1 ≤ pageNumber ∧ pageNumber ≤ doc.numPages then
          .ok (.pdfPage pageNumber (pdfScale width doc.pageWidthPt))
        else
          .error invalidPageMessage
  | some (.shower doc) =>
    match extractSlide doc.slides (fragOf src) with
    | none =>
      .error ("Could not find slide in " ++ docUrlOf src)
    | some _ =>
      match dims with
      | some (w, h) =>
        if w ≠ 0 then
          .ok (.htmlSlide (scaleContent width (w : ℚ) (h : ℚ)).1
            (scaleContent width (w : ℚ) (h : ℚ)).2)
        else
          .ok (.htmlSlideDeferred (width / defaultAspectRatio))
      | none => .ok (.htmlSlideDeferred (width / defaultAspectRatio))

/-- Result of one `#render` call: drawn content, or the fallback
markup installed by the catch branch. -/
inductive RenderContent
  | content (body : RenderBody)
  | fallback (markup : String)
deriving DecidableEq, Repr

/-- `#render` with its catch boundary: every thrown content error is
caught and converted into the fallback markup; the function is total,
so a render call never fails the surrounding cycle. -/
def renderOutcome (src innerHTML : String) (width : ℚ) (entry : Option Entry)
    (dims : Option (Nat × Nat)) : RenderContent :=
  match renderTry src width entry dims with
  | .ok body => .content body
  | .error _ => .fallback (fallbackMarkup src innerHTML)

/-! ## The cross-instance fetch system (`#fetch`, lines 239-315)

One deck URL; any number of component instances may call `#fetch` for
it.  Per instance, the synchronous segment from function entry up to
the first suspension is atomic: it checks `pendingFetch[docUrl]`
(suspending on it when present), then checks `cache[docUrl]` (returning
on a hit), then installs the pending marker and issues the network
fetch.  The whole asynchronous remainder of the owner (response,
optional pdf.js load, body text, parse) writes the cache entry and
clears the marker in its final synchronous segment; every intermediate
suspension leaves the shared state untouched, so the owner is modelled
as one `inFlight` phase closed by one `complete` transition that stores
`fetchOutcome` and releases the waiters. -/

/-- Program counter of one instance running `#fetch` for the deck URL. -/
inductive FPC
  | start
  | waiting
  | inFlight
  | done (obs : Entry)
deriving DecidableEq, Repr

/-- Shared fetch state for one deck URL: the cache slot, the
pending-fetch marker, the per-instance program counters, and the number
of network fetches issued so far. -/
structure FetchState where
  cache : Option Entry
  pending : Bool
  threads : List FPC
  fetchCount : Nat
deriving DecidableEq, Repr

/-- Initial fetch state: nothing cached, no marker, `n` instances about
to call `#fetch`, no network fetch issued. -/
def initFetchState (n : Nat) : FetchState :=
  { cache := none, pending := false, threads := List.replicate n .start, fetchCount := 0 }

/-- One atomic segment of `#fetch`, for a fixed deck URL `u` and `type`
attribute `ty`.  `enterWait` suspends on a present pending marker;
`hitFromStart`/`resumeHit` return on a cache hit; `beginFetch` and
`resumeMiss` install the marker and issue the network fetch (the
re-check after awaiting the marker falls through to a fresh fetch when
the cache is still empty, exactly as the source does); `complete`
stores the entry computed by `fetchOutcome` from the environment,
clears the marker and releases the waiters. -/
inductive FStep (u : String) (ty : Option String) : FetchState → FetchState → Prop
  | enterWait (s : FetchState) (i : Nat)
      (h : s.threads.get? i = some .start) (hp : s.pending = true) :
      FStep u ty s { s with threads := s.threads.set i .waiting }
  | hitFromStart (s : FetchState) (i : Nat) (e : Entry)
      (h : s.threads.get? i = some .start) (hp : s.pending = false)
      (hc : s.cache = some e) :
      FStep u ty s { s with threads := s.threads.set i (.done e) }
  | beginFetch (s : FetchState) (i : Nat)
      (h : s.threads.get? i = some .start) (hp : s.pending = false)
      (hc : s.cache = none) :
      FStep u ty s { s with pending := true, fetchCount := s.fetchCount + 1,
                            threads := s.threads.set i .inFlight }
  | resumeHit (s : FetchState) (i : Nat) (e : Entry)
      (h : s.threads.get? i = some .waiting) (hp : s.pending = false)
      (hc : s.cache = some e) :
      FStep u ty s { s with threads := s.threads.set i (.done e) }
  | resumeMiss (s : FetchState) (i : Nat)
      (h : s.threads.get? i = some .waiting) (hp : s.pending = false)
      (hc : s.cache = none) :
      FStep u ty s { s with pending := true, fetchCount := s.fetchCount + 1,
                            threads := s.threads.set i .inFlight }
  | complete (s : FetchState) (i : Nat) (env : FetchEnv)
      (h : s.threads.get? i = some .inFlight) :
      FStep u ty s { s with cache := some (fetchOutcome u ty env), pending := false,
                            threads := s.threads.set i (.done (fetchOutcome u ty env)) }

/-- States reachable from `n` instances all about to fetch the same
deck URL. -/
inductive FReach (u : String) (ty : Option String) (n : Nat) : FetchState → Prop
  | init : FReach u ty n (initFetchState n)
  | step {s t : FetchState} : FReach u ty n s → FStep u ty s t → FReach u ty n t

/-- Inductive invariant of the fetch system. -/
def FetchInv (n : Nat) (s : FetchState) : Prop :=
  s.threads.length = n ∧
  (s.pending = true ↔ ∃ i, s.threads.get? i = some .inFlight) ∧
  (∀ i j, s.threads.get? i = some .inFlight → s.threads.get? j = some .inFlight → i = j) ∧
  (s.pending = true → s.cache = none) ∧
  (s.fetchCount = (if s.pending then 1 else 0) + (if s.cache.isSome then 1 else 0)) ∧
  (∀ i, s.threads.get? i = some .waiting → s.pending = true ∨ s.cache.isSome) ∧
  (∀ i e, s.threads.get? i = some (.done e) → s.cache = some e)

theorem get?_set_self {α : Type} (l : List α) (i : Nat) (a : α) (h : i < l.length) :
    (l.set i a).get? i = some a :=
  List.get?_set_eq_of_lt a h

theorem get?_set_other {α : Type} (l : List α) {i j : Nat} (a : α) (hne : i ≠ j) :
    (l.set i a).get? j = l.get? j :=
  List.get?_set_ne a l hne

theorem get?_replicate_eq {α : Type} {a b : α} {n i : Nat}
    (h : (List.replicate n a).get? i = some b) : b = a := by
  simp [List.get?_eq_getElem?, List.getElem?_replicate] at h
  by_cases hi : i < n
  · simp [hi] at h; exact h.symm
  · simp [hi] at h

theorem fetchInv_init (n : Nat) : FetchInv n (initFetchState n) := by
  refine ⟨by simp [initFetchState], ?_, ?_, ?_, ?_, ?_, ?_⟩
  · constructor
    · intro h; exact Bool.noConfusion h
    · rintro ⟨i, hi⟩; exact FPC.noConfusion (get?_replicate_eq hi)
  · intro i j hi _; exact FPC.noConfusion (get?_replicate_eq hi)
  · intro h; exact Bool.noConfusion h
  · rfl
  · intro i h; exact FPC.noConfusion (get?_replicate_eq h)
  · intro i e h; exact FPC.noConfusion (get?_replicate_eq h)

theorem lt_of_get?_eq_some {α : Type} {l : List α} {i : Nat} {a : α}
    (h : l.get? i = some a) : i < l.length := by
  by_contra hge
  rw [List.get?_eq_none.mpr (Nat.le_of_not_lt hge)] at h
  exact Option.noConfusion h

theorem get?_set_cases {α : Type} {l : List α} {i j : Nat} {a b : α}
    (hi : i < l.length) (h : (l.set i a).get? j = some b) :
    (j = i ∧ b = a) ∨ (j ≠ i ∧ l.get? j = some b) := by
  by_cases hji : j = i
  · subst hji
    rw [get?_set_self _ _ _ hi] at h
    exact Or.inl ⟨rfl, (Option.some_inj.mp h).symm⟩
  · exact Or.inr ⟨hji, by rwa [get?_set_other _ _ (fun hij => hji hij.symm)] at h⟩

/-- The fetch invariant is preserved by every atomic segment. -/
theorem fetchInv_step {u : String} {ty : Option String} {n : Nat} {s t : FetchState}
    (hs : FetchInv n s) (hstep : FStep u ty s t) : FetchInv n t := by
  obtain ⟨hlen, hiff, huniq, hpc, hcount, hwait, hdone⟩ := hs
  cases hstep with
  | enterWait i h hp =>
    have hi : i < s.threads.length := lt_of_get?_eq_some h
    refine ⟨by simpa using hlen, ?_, ?_, hpc, hcount, ?_, ?_⟩
    · constructor
      · intro _
        obtain ⟨j, hj⟩ := hiff.mp hp
        have hji : j ≠ i := by
          intro hji; rw [hji, h] at hj
          exact FPC.noConfusion (Option.some_inj.mp hj)
        exact ⟨j, by rwa [get?_set_other _ _ (fun hij => hji hij.symm)]⟩
      · intro _; exact hp
    · intro j k hj hk
      rcases get?_set_cases hi hj with ⟨_, hbad⟩ | ⟨_, hj0⟩
      · exact FPC.noConfusion hbad
      · rcases get?_set_cases hi hk with ⟨_, hbad⟩ | ⟨_, hk0⟩
        · exact FPC.noConfusion hbad
        · exact huniq j k hj0 hk0
    · intro j hj
      exact Or.inl hp
    · intro j e hj
      rcases get?_set_cases hi hj with ⟨_, hbad⟩ | ⟨_, hj0⟩
      · exact FPC.noConfusion hbad
      · exact hdone j e hj0
  | hitFromStart i e h hp hc =>
    have hi : i < s.threads.length := lt_of_get?_eq_some h
    refine ⟨by simpa using hlen, ?_, ?_, hpc, hcount, ?_, ?_⟩
    · constructor
      · intro hp2; exact absurd (hp.symm.trans hp2) (by simp)
      · rintro ⟨j, hj⟩
        rcases get?_set_cases hi hj with ⟨_, hbad⟩ | ⟨_, hj0⟩
        · exact FPC.noConfusion hbad
        · exact hiff.mpr ⟨j, hj0⟩
    · intro j k hj hk
      rcases get?_set_cases hi hj with ⟨_, hbad⟩ | ⟨_, hj0⟩
      · exact FPC.noConfusion hbad
      · exact absurd (hiff.mpr ⟨j, hj0⟩) (by simp [hp])
    · intro j hj
      rcases get?_set_cases hi hj with ⟨_, hbad⟩ | ⟨_, hj0⟩
      · exact FPC.noConfusion hbad
      · exact hwait j hj0
    · intro j f hj
      rcases get?_set_cases hi hj with ⟨_, hfe⟩ | ⟨_, hj0⟩
      · cases FPC.done.inj hfe; exact hc
      · exact hdone j f hj0
  | beginFetch i h hp hc =>
    have hi : i < s.threads.length := lt_of_get?_eq_some h
    refine ⟨by simpa using hlen, ?_, ?_, ?_, ?_, ?_, ?_⟩
    · constructor
      · intro _; exact ⟨i, get?_set_self _ _ _ hi⟩
      · intro _; rfl
    · intro j k hj hk
      rcases get?_set_cases hi hj with ⟨hji, _⟩ | ⟨_, hj0⟩
      · rcases get?_set_cases hi hk with ⟨hki, _⟩ | ⟨_, hk0⟩
        · rw [hji, hki]
        · exact absurd (hiff.mpr ⟨k, hk0⟩) (by simp [hp])
      · exact absurd (hiff.mpr ⟨j, hj0⟩) (by simp [hp])
    · intro _; exact hc
    · rw [hcount, hp, hc]; rfl
    · intro j hj
      exact Or.inl rfl
    · intro j e hj
      rcases get?_set_cases hi hj with ⟨_, hbad⟩ | ⟨_, hj0⟩
      · exact FPC.noConfusion hbad
      · exact absurd (hdone j e hj0) (by simp [hc])
  | resumeHit i e h hp hc =>
    have hi : i < s.threads.length := lt_of_get?_eq_some h
    refine ⟨by simpa using hlen, ?_, ?_, hpc, hcount, ?_, ?_⟩
    · constructor
      · intro hp2; exact absurd (hp.symm.trans hp2) (by simp)
      · rintro ⟨j, hj⟩
        rcases get?_set_cases hi hj with ⟨_, hbad⟩ | ⟨_, hj0⟩
        · exact FPC.noConfusion hbad
        · exact hiff.mpr ⟨j, hj0⟩
    · intro j k hj hk
      rcases get?_set_cases hi hj with ⟨_, hbad⟩ | ⟨_, hj0⟩
      · exact FPC.noConfusion hbad
      · exact absurd (hiff.mpr ⟨j, hj0⟩) (by simp [hp])
    · intro j hj
      rcases get?_set_cases hi hj with ⟨_, hbad⟩ | ⟨_, hj0⟩
      · exact FPC.noConfusion hbad
      · exact hwait j hj0
    · intro j f hj
      rcases get?_set_cases hi hj with ⟨_, hfe⟩ | ⟨_, hj0⟩
      · cases FPC.done.inj hfe; exact hc
      · exact hdone j f hj0
  | resumeMiss i h hp hc =>
    have hi : i < s.threads.length := lt_of_get?_eq_some h
    refine ⟨by simpa using hlen, ?_, ?_, ?_, ?_, ?_, ?_⟩
    · constructor
      · intro _; exact ⟨i, get?_set_self _ _ _ hi⟩
      · intro _; rfl
    · intro j k hj hk
      rcases get?_set_cases hi hj with ⟨hji, _⟩ | ⟨_, hj0⟩
      · rcases get?_set_cases hi hk with ⟨hki, _⟩ | ⟨_, hk0⟩
        · rw [hji, hki]
        · exact absurd (hiff.mpr ⟨k, hk0⟩) (by simp [hp])
      · exact absurd (hiff.mpr ⟨j, hj0⟩) (by simp [hp])
    · intro _; exact hc
    · rw [hcount, hp, hc]; rfl
    · intro j hj
      exact Or.inl rfl
    · intro j e hj
      rcases get?_set_cases hi hj with ⟨_, hbad⟩ | ⟨_, hj0⟩
      · exact FPC.noConfusion hbad
      · exact absurd (hdone j e hj0) (by simp [hc])
  | complete i env h =>
    have hi : i < s.threads.length := lt_of_get?_eq_some h
    have hsp : s.pending = true := hiff.mpr ⟨i, h⟩
    have hsc : s.cache = none := hpc hsp
    refine ⟨by simpa using hlen, ?_, ?_, ?_, ?_, ?_, ?_⟩
    · constructor
      · intro hp2; exact Bool.noConfusion hp2
      · rintro ⟨j, hj⟩
        rcases get?_set_cases hi hj with ⟨_, hbad⟩ | ⟨hji, hj0⟩
        · exact FPC.noConfusion hbad
        · exact absurd (huniq j i hj0 h) hji
    · intro j k hj hk
      rcases get?_set_cases hi hj with ⟨_, hbad⟩ | ⟨hji, hj0⟩
      · exact FPC.noConfusion hbad
      · exact absurd (huniq j i hj0 h) hji
    · intro hp2; exact Bool.noConfusion hp2
    · rw [hcount, hsp, hsc]; rfl
    · intro j hj
      exact Or.inr rfl
    · intro j f hj
      rcases get?_set_cases hi hj with ⟨_, hfe⟩ | ⟨_, hj0⟩
      · rw [FPC.done.inj hfe]
      · rw [hsc] at hdone
        exact Option.noConfusion (hdone j f hj0)

/-- Every reachable fetch state satisfies the invariant. -/
theorem fetchInv_reach {u : String} {ty : Option String} {n : Nat} {s : FetchState}
    (h : FReach u ty n s) : FetchInv n s := by
  induction h with
  | init => exact fetchInv_init n
  | step _ hstep ih => exact fetchInv_step ih hstep

/-- Once a cache entry exists it is never replaced nor removed, and no
further network fetch is ever issued for the deck URL. -/
theorem cache_terminal {u : String} {ty : Option String} {n : Nat} {s t : FetchState}
    {e : Entry} (hr : FReach u ty n s) (hc : s.cache = some e) (hstep : FStep u ty s t) :
    t.cache = some e ∧ t.fetchCount = s.fetchCount := by
  have hinv := fetchInv_reach hr
  obtain ⟨_, hiff, _, hpc, _, _, _⟩ := hinv
  cases hstep with
  | enterWait i h hp => exact ⟨hc, rfl⟩
  | hitFromStart i f h hp hcf => exact ⟨hc, rfl⟩
  | beginFetch i h hp hcf => rw [hcf] at hc; exact Option.noConfusion hc
  | resumeHit i f h hp hcf => exact ⟨hc, rfl⟩
  | resumeMiss i h hp hcf => rw [hcf] at hc; exact Option.noConfusion hc
  | complete i env h =>
    have hsp : s.pending = true := hiff.mpr ⟨i, h⟩
    rw [hpc hsp] at hc
    exact Option.noConfusion hc

/-- Any instance that has not yet returned from `#fetch` can always make
a step: waiters are always released. -/
theorem fetch_progress {u : String} {ty : Option String} {n : Nat} {s : FetchState}
    (hr : FReach u ty n s) (i : Nat) (pc : FPC)
    (hi : s.threads.get? i = some pc) (hnd : ∀ e, pc ≠ .done e) :
    ∃ t, FStep u ty s t := by
  obtain ⟨hlen, hiff, huniq, hpc, hcount, hwait, hdone⟩ := fetchInv_reach hr
  cases pc with
  | start =>
    cases hp : s.pending with
    | true => exact ⟨_, .enterWait s i hi hp⟩
    | false =>
      cases hc : s.cache with
      | none => exact ⟨_, .beginFetch s i hi hp hc⟩
      | some e => exact ⟨_, .hitFromStart s i e hi hp hc⟩
  | waiting =>
    cases hp : s.pending with
    | true =>
      obtain ⟨j, hj⟩ := hiff.mp hp
      exact ⟨_, .complete s j ⟨.networkError "down", .error "down", ⟨[]⟩⟩ hj⟩
    | false =>
      cases hc : s.cache with
      | none => exact ⟨_, .resumeMiss s i hi hp hc⟩
      | some e => exact ⟨_, .resumeHit s i e hi hp hc⟩
  | inFlight => exact ⟨_, .complete s i ⟨.networkError "down", .error "down", ⟨[]⟩⟩ hi⟩
  | done e => exact absurd rfl (hnd e)

/-- C1: for any number of instances whose `#fetch` calls for the same
deck URL overlap, in every reachable interleaving at most one network
fetch is in flight, all completed callers observe the same cache entry,
and once every caller has completed (with at least one caller) exactly
one network fetch has occurred. -/
theorem single_fetch_per_deck_url (u : String) (ty : Option String) (n : Nat)
    (s : FetchState) (hr : FReach u ty n s) :
    (∀ i j, s.threads.get? i = some .inFlight → s.threads.get? j = some .inFlight → i = j)
    ∧ (∀ i j e f, s.threads.get? i = some (.done e) → s.threads.get? j = some (.done f) →
        e = f)
    ∧ ((∀ i pc, s.threads.get? i = some pc → ∃ e, pc = .done e) → 1 ≤ n →
        s.fetchCount = 1) := by
  obtain ⟨hlen, hiff, huniq, hpc, hcount, hwait, hdone⟩ := fetchInv_reach hr
  refine ⟨huniq, ?_, ?_⟩
  · intro i j e f hi hj
    have he := hdone i e hi
    have hf := hdone j f hj
    exact Option.some_inj.mp (he.symm.trans hf)
  · intro hall hn
    cases hg : s.threads.get? 0 with
    | none =>
      rw [List.get?_eq_none] at hg
      omega
    | some pc =>
      obtain ⟨e, rfl⟩ := hall 0 pc hg
      have hce := hdone 0 e hg
      have hpf : s.pending = false := by
        cases hpv : s.pending with
        | false => rfl
        | true => rw [hpc hpv] at hce; exact Option.noConfusion hce
      rw [hcount, hpf, hce]
      rfl

/-- Deck URL used by the concrete executions below. -/
def deckUrl : String := "https://example.org/deck.html"

/-- A one-slide parsed HTML document. -/
def sampleDoc : HtmlDoc := ⟨[⟨none⟩]⟩

/-- A successful HTML fetch environment. -/
def sampleEnv : FetchEnv := ⟨.ok ⟨200, some "text/html", "deck"⟩, .error "unused", sampleDoc⟩

/-- The entry such an environment stores. -/
def sampleEntry : Entry := fetchOutcome deckUrl none sampleEnv

/-- Final state of a two-instance interleaving: both instances done,
one network fetch. -/
def fetchFinalState : FetchState :=
  { cache := some sampleEntry, pending := false,
    threads := [.done sampleEntry, .done sampleEntry], fetchCount := 1 }

theorem fetchFinalState_reach : FReach deckUrl none 2 fetchFinalState := by
  have h0 : FReach deckUrl none 2 (initFetchState 2) := FReach.init
  have h1 := FReach.step h0 (FStep.beginFetch (initFetchState 2) 0 rfl rfl rfl)
  have h2 := FReach.step h1 (FStep.enterWait _ 1 rfl rfl)
  have h3 := FReach.step h2 (FStep.complete _ 0 sampleEnv rfl)
  have h4 := FReach.step h3 (FStep.resumeHit _ 1 sampleEntry rfl rfl rfl)
  exact h4

theorem single_fetch_per_deck_url_witness :
    fetchFinalState.fetchCount = 1 := by
  refine (single_fetch_per_deck_url deckUrl none 2 fetchFinalState
    fetchFinalState_reach).2.2 ?_ (by decide)
  intro i pc h
  match i with
  | 0 => cases h; exact ⟨sampleEntry, rfl⟩
  | 1 => cases h; exact ⟨sampleEntry, rfl⟩
  | (k + 2) => exact Option.noConfusion h

/-- C10: every completion path of `#fetch` leaves the cache defined at
the deck URL with one of the three entry variants and no pending-fetch
marker, and any interleaving with an uncompleted caller can still step
(waiters are always released); the render step of a cycle whose own
fetch completed therefore always finds a cache entry for its URL. -/
theorem fetch_completion_cache_defined (u : String) (ty : Option String) (n : Nat)
    (s : FetchState) (hr : FReach u ty n s) :
    (∀ i e, s.threads.get? i = some (.done e) → s.cache = some e ∧ s.pending = false)
    ∧ (∀ e, s.cache = some e →
        (∃ d, e = .pdf d) ∨ (∃ d, e = .shower d) ∨ (∃ m, e = .error m))
    ∧ ((∃ i pc, s.threads.get? i = some pc ∧ ∀ e, pc ≠ .done e) →
        ∃ t, FStep u ty s t) := by
  obtain ⟨hlen, hiff, huniq, hpc, hcount, hwait, hdone⟩ := fetchInv_reach hr
  refine ⟨?_, ?_, ?_⟩
  · intro i e hi
    have hce := hdone i e hi
    refine ⟨hce, ?_⟩
    cases hpv : s.pending with
    | false => rfl
    | true => rw [hpc hpv] at hce; exact Option.noConfusion hce
  · intro e _
    cases e with
    | pdf d => exact Or.inl ⟨d, rfl⟩
    | shower d => exact Or.inr (Or.inl ⟨d, rfl⟩)
    | error m => exact Or.inr (Or.inr ⟨m, rfl⟩)
  · rintro ⟨i, pc, hi, hnd⟩
    exact fetch_progress hr i pc hi hnd

/-- Intermediate state of the two-instance interleaving: the owner has
completed, the waiter has not resumed yet. -/
def fetchMidState : FetchState :=
  { cache := some sampleEntry, pending := false,
    threads := [.done sampleEntry, .waiting], fetchCount := 1 }

theorem fetchMidState_reach : FReach deckUrl none 2 fetchMidState := by
  have h0 : FReach deckUrl none 2 (initFetchState 2) := FReach.init
  have h1 := FReach.step h0 (FStep.beginFetch (initFetchState 2) 0 rfl rfl rfl)
  have h2 := FReach.step h1 (FStep.enterWait _ 1 rfl rfl)
  have h3 := FReach.step h2 (FStep.complete _ 0 sampleEnv rfl)
  exact h3

theorem fetch_completion_cache_defined_witness :
    (fetchMidState.cache = some sampleEntry ∧ fetchMidState.pending = false)
    ∧ ∃ t, FStep deckUrl none fetchMidState t := by
  have h := fetch_completion_cache_defined deckUrl none 2 fetchMidState fetchMidState_reach
  refine ⟨h.1 0 sampleEntry rfl, h.2.2 ⟨1, .waiting, rfl, ?_⟩⟩
  intro e he
  exact FPC.noConfusion he

/-- C5: a failing fetch (non-2xx HTTP status, or transport failure) is
recorded as the error variant of the cache entry carrying the
human-readable message of the source, and a cached entry is terminal:
no later step for the same deck URL replaces it or issues another
network fetch. -/
theorem failed_fetch_terminal (u : String) (ty : Option String)
    (status : Nat) (ct : Option String) (body : String) (pr : Except String PdfDoc)
    (doc : HtmlDoc) (m : String) (hstat : status < 200 ∨ 300 ≤ status) :
    fetchOutcome u ty ⟨.ok ⟨status, ct, body⟩, pr, doc⟩ = .error (httpErrorMessage u status)
    ∧ fetchOutcome u ty ⟨.networkError m, pr, doc⟩ = .error (caughtErrorMessage u m)
    ∧ ∀ {n : Nat} {s t : FetchState} {e : Entry}, FReach u ty n s → s.cache = some e →
        FStep u ty s t → t.cache = some e ∧ t.fetchCount = s.fetchCount := by
  refine ⟨?_, rfl, ?_⟩
  · have hne : status ≠ 200 := by omega
    simp [fetchOutcome, hne]
  · intro n s t e hr hc hstep
    exact cache_terminal hr hc hstep

/-- The error entry stored for a 404 on `missing.pdf`. -/
def errorEntry404 : Entry :=
  .error (httpErrorMessage "https://example.org/missing.pdf" 404)

/-- A 404 environment for `missing.pdf`. -/
def env404 : FetchEnv := ⟨.ok ⟨404, some "text/html", ""⟩, .error "unused", ⟨[]⟩⟩

/-- State after the owner cached the 404 error and a second caller
(e.g. the same instance with `src` set back to the same value) is about
to run `#fetch` again. -/
def errorCachedState : FetchState :=
  { cache := some errorEntry404, pending := false,
    threads := [.done errorEntry404, .start], fetchCount := 1 }

theorem errorCachedState_reach :
    FReach "https://example.org/missing.pdf" none 2 errorCachedState := by
  have h0 : FReach "https://example.org/missing.pdf" none 2 (initFetchState 2) := FReach.init
  have h1 := FReach.step h0 (FStep.beginFetch (initFetchState 2) 0 rfl rfl rfl)
  have h2 := FReach.step h1 (FStep.complete _ 0 env404 rfl)
  exact h2

theorem failed_fetch_terminal_witness :
    fetchOutcome "https://example.org/missing.pdf" none env404 = errorEntry404
    ∧ (let t : FetchState :=
        { errorCachedState with threads := [.done errorEntry404, .done errorEntry404] }
       t.cache = some errorEntry404 ∧ t.fetchCount = errorCachedState.fetchCount) := by
  have h := failed_fetch_terminal "https://example.org/missing.pdf" none
    404 (some "text/html") "" (.error "unused") ⟨[]⟩ "down" (by omega)
  refine ⟨h.1, ?_⟩
  exact h.2.2 errorCachedState_reach rfl
    (FStep.hitFromStart errorCachedState 1 errorEntry404 rfl rfl rfl)

/-! ## The cross-instance dimension measurement
(`#calculateHTMLDimensions`, lines 320-341)

The synchronous segment from function entry reads
`pendingDimensions[docUrl]`: when a promise is stored there the caller
awaits THAT promise; otherwise, when `cacheEntry.width` is truthy it
returns, and otherwise it stores a fresh promise in the registry and
starts measuring (`await stylesLoaded`).  The completion segment writes
`cacheEntry.width` and `cacheEntry.height` from the measuring
instance's own slide element, executes
`delete pendingDimensions[docUrl]` — removing whatever promise the
registry holds at that moment, not necessarily its own — and resolves
its own promise, releasing the instances that awaited it.

Unlike `#fetch`, a resumed waiter re-checks only `cacheEntry.width`; it
never re-reads the registry.  Because the skip guard is JS truthiness,
a recorded width of `0` (e.g. a slide measured while the host is
hidden) counts as unmeasured, so a resumed waiter can store a fresh
promise — overwriting one that another instance just stored — and
measure while that other instance's measurement is still in flight.

Promises are modelled by generation numbers: `nextGen` counts the
promises created so far, `marker` holds the generation of the promise
currently stored in the registry (if any), a waiter records the
generation it awaited, and that promise is resolved exactly when its
creator has completed, i.e. when no thread is still measuring under
that generation.  The measured client widths are environment inputs of
the completion transition, restricted by a predicate `P` so that the
theorems can quantify over the measurement outcomes. -/

/-- Truthiness of the recorded `cacheEntry.width`. -/
def truthyW : Option Nat → Bool
  | none => false
  | some 0 => false
  | some (_ + 1) => true

/-- Program counter of one instance in `#calculateHTMLDimensions`:
`waiting g` awaits the promise of generation `g`, `measuring g` owns
the promise of generation `g`, and `done` records the entry dimensions
the instance observed when it returned. -/
inductive DPC
  | start
  | waiting (gen : Nat)
  | measuring (gen : Nat)
  | done (obs : Option Nat × Option Nat)
deriving DecidableEq, Repr

/-- Shared measurement state for one deck URL: the `width`/`height`
fields of the cache entry, the registry slot (generation of the stored
promise), the number of promises created, the program counters, and
the number of measurement passes started. -/
structure DimState where
  entryW : Option Nat
  entryH : Option Nat
  marker : Option Nat
  nextGen : Nat
  threads : List DPC
  measureCount : Nat
deriving DecidableEq, Repr

/-- Initial measurement state: dimensions unknown, empty registry, `n`
HTML instances about to measure. -/
def initDimState (n : Nat) : DimState :=
  { entryW := none, entryH := none, marker := none, nextGen := 0,
    threads := List.replicate n .start, measureCount := 0 }

/-- One atomic segment of `#calculateHTMLDimensions`.  A `start` thread
awaits the stored promise when the registry is nonempty, else returns
on a truthy width, else stores a fresh promise and measures.  A
`waiting g` thread resumes once the promise of generation `g` is
resolved — its creator completed, so no thread is measuring under `g`
any more — and then checks only the entry width: it returns when the
width is truthy and otherwise stores a fresh promise (overwriting the
registry unconditionally, as the source assignment does) and measures.
Completion writes the measured dimensions, deletes whatever promise
the registry currently holds, and resolves the completer's own
promise. -/
inductive DStep (P : Nat → Prop) : DimState → DimState → Prop
  | enterWait (s : DimState) (i g : Nat)
      (h : s.threads.get? i = some .start) (hm : s.marker = some g) :
      DStep P s { s with threads := s.threads.set i (.waiting g) }
  | skipFromStart (s : DimState) (i : Nat)
      (h : s.threads.get? i = some .start) (hm : s.marker = none)
      (hw : truthyW s.entryW = true) :
      DStep P s { s with threads := s.threads.set i (.done (s.entryW, s.entryH)) }
  | beginMeasure (s : DimState) (i : Nat)
      (h : s.threads.get? i = some .start) (hm : s.marker = none)
      (hw : truthyW s.entryW = false) :
      DStep P s { s with marker := some s.nextGen, nextGen := s.nextGen + 1,
                         measureCount := s.measureCount + 1,
                         threads := s.threads.set i (.measuring s.nextGen) }
  | resumeSkip (s : DimState) (i g : Nat)
      (h : s.threads.get? i = some (.waiting g))
      (hres : ∀ j, s.threads.get? j ≠ some (.measuring g))
      (hw : truthyW s.entryW = true) :
      DStep P s { s with threads := s.threads.set i (.done (s.entryW, s.entryH)) }
  | resumeMeasure (s : DimState) (i g : Nat)
      (h : s.threads.get? i = some (.waiting g))
      (hres : ∀ j, s.threads.get? j ≠ some (.measuring g))
      (hw : truthyW s.entryW = false) :
      DStep P s { s with marker := some s.nextGen, nextGen := s.nextGen + 1,
                         measureCount := s.measureCount + 1,
                         threads := s.threads.set i (.measuring s.nextGen) }
  | completeMeasure (s : DimState) (i g : Nat) (w hgt : Nat) (hP : P w)
      (h : s.threads.get? i = some (.measuring g)) :
      DStep P s { s with entryW := some w, entryH := some hgt, marker := none,
                         threads := s.threads.set i (.done (some w, some hgt)) }

/-- States reachable from `n` instances about to measure the same deck. -/
inductive DReach (P : Nat → Prop) (n : Nat) : DimState → Prop
  | init : DReach P n (initDimState n)
  | step {s t : DimState} : DReach P n s → DStep P s t → DReach P n t

/-- Bookkeeping invariant that holds for any measured values: each
measurement pass creates exactly one promise generation, every
generation in use was created, and each generation has a unique owner. -/
def DimInv (n : Nat) (s : DimState) : Prop :=
  s.threads.length = n ∧
  s.measureCount = s.nextGen ∧
  (∀ g, s.marker = some g → g < s.nextGen) ∧
  (∀ i g, s.threads.get? i = some (.waiting g) → g < s.nextGen) ∧
  (∀ i g, s.threads.get? i = some (.measuring g) → g < s.nextGen) ∧
  (∀ i j g, s.threads.get? i = some (.measuring g) →
    s.threads.get? j = some (.measuring g) → i = j)

/-- Phase invariant holding when every measured width is nonzero: the
system is (0) untouched, (1) running its single measurement pass under
generation 0, or (2) settled with a positive recorded width. -/
def DimInvNZ (s : DimState) : Prop :=
  (s.nextGen = 0 ∧ s.marker = none ∧ s.entryW = none ∧ s.entryH = none ∧
    ∀ i pc, s.threads.get? i = some pc → pc = .start)
  ∨ (s.nextGen = 1 ∧ s.marker = some 0 ∧ s.entryW = none ∧ s.entryH = none ∧
      (∃ j, s.threads.get? j = some (.measuring 0)) ∧
      ∀ i pc, s.threads.get? i = some pc →
        pc = .start ∨ pc = .waiting 0 ∨ pc = .measuring 0)
  ∨ (∃ w hgt, 0 < w ∧ s.nextGen = 1 ∧ s.marker = none ∧
      s.entryW = some w ∧ s.entryH = some hgt ∧
      ∀ i pc, s.threads.get? i = some pc →
        pc = .start ∨ pc = .waiting 0 ∨ pc = .done (some w, some hgt))

theorem dimInv_init (n : Nat) : DimInv n (initDimState n) := by
  refine ⟨by simp [initDimState], rfl, ?_, ?_, ?_, ?_⟩
  · intro g hg; exact Option.noConfusion hg
  · intro i g h; exact DPC.noConfusion (get?_replicate_eq h)
  · intro i g h; exact DPC.noConfusion (get?_replicate_eq h)
  · intro i j g hi _; exact DPC.noConfusion (get?_replicate_eq hi)

theorem dimInvNZ_init (n : Nat) : DimInvNZ (initDimState n) :=
  Or.inl ⟨rfl, rfl, rfl, rfl, fun _ _ h => get?_replicate_eq h⟩

theorem truthyW_of_pos {w : Nat} (h : 0 < w) : truthyW (some w) = true := by
  cases w with
  | zero => omega
  | succ k => rfl

theorem dimInv_step {P : Nat → Prop} {n : Nat} {s t : DimState}
    (hs : DimInv n s) (hstep : DStep P s t) : DimInv n t := by
  obtain ⟨hlen, hcnt, hmb, hwb, hmg, huniq⟩ := hs
  cases hstep with
  | enterWait i g h hm =>
    have hi : i < s.threads.length := lt_of_get?_eq_some h
    refine ⟨by simpa using hlen, hcnt, hmb, ?_, ?_, ?_⟩
    · intro j g2 hj
      rcases get?_set_cases hi hj with ⟨_, he⟩ | ⟨_, hj0⟩
      · rw [DPC.waiting.inj he]
        exact hmb g hm
      · exact hwb j g2 hj0
    · intro j g2 hj
      rcases get?_set_cases hi hj with ⟨_, hbad⟩ | ⟨_, hj0⟩
      · exact DPC.noConfusion hbad
      · exact hmg j g2 hj0
    · intro j k g2 hj hk
      rcases get?_set_cases hi hj with ⟨_, hbad⟩ | ⟨_, hj0⟩
      · exact DPC.noConfusion hbad
      · rcases get?_set_cases hi hk with ⟨_, hbad⟩ | ⟨_, hk0⟩
        · exact DPC.noConfusion hbad
        · exact huniq j k g2 hj0 hk0
  | skipFromStart i h hm hw =>
    have hi : i < s.threads.length := lt_of_get?_eq_some h
    refine ⟨by simpa using hlen, hcnt, hmb, ?_, ?_, ?_⟩
    · intro j g2 hj
      rcases get?_set_cases hi hj with ⟨_, hbad⟩ | ⟨_, hj0⟩
      · exact DPC.noConfusion hbad
      · exact hwb j g2 hj0
    · intro j g2 hj
      rcases get?_set_cases hi hj with ⟨_, hbad⟩ | ⟨_, hj0⟩
      · exact DPC.noConfusion hbad
      · exact hmg j g2 hj0
    · intro j k g2 hj hk
      rcases get?_set_cases hi hj with ⟨_, hbad⟩ | ⟨_, hj0⟩
      · exact DPC.noConfusion hbad
      · rcases get?_set_cases hi hk with ⟨_, hbad⟩ | ⟨_, hk0⟩
        · exact DPC.noConfusion hbad
        · exact huniq j k g2 hj0 hk0
  | beginMeasure i h hm hw =>
    have hi : i < s.threads.length := lt_of_get?_eq_some h
    refine ⟨by simpa using hlen, by rw [hcnt], ?_, ?_, ?_, ?_⟩
    · intro g2 hg2
      rw [← Option.some_inj.mp hg2]
      exact Nat.lt_succ_self _
    · intro j g2 hj
      rcases get?_set_cases hi hj with ⟨_, hbad⟩ | ⟨_, hj0⟩
      · exact DPC.noConfusion hbad
      · exact Nat.lt_succ_of_lt (hwb j g2 hj0)
    · intro j g2 hj
      rcases get?_set_cases hi hj with ⟨_, he⟩ | ⟨_, hj0⟩
      · rw [DPC.measuring.inj he]
        exact Nat.lt_succ_self _
      · exact Nat.lt_succ_of_lt (hmg j g2 hj0)
    · intro j k g2 hj hk
      rcases get?_set_cases hi hj with ⟨hji, he⟩ | ⟨_, hj0⟩
      · rcases get?_set_cases hi hk with ⟨hki, _⟩ | ⟨_, hk0⟩
        · rw [hji, hki]
        · rw [DPC.measuring.inj he] at hk0
          exact absurd (hmg k s.nextGen hk0) (Nat.lt_irrefl _)
      · rcases get?_set_cases hi hk with ⟨_, he2⟩ | ⟨_, hk0⟩
        · rw [DPC.measuring.inj he2] at hj0
          exact absurd (hmg j s.nextGen hj0) (Nat.lt_irrefl _)
        · exact huniq j k g2 hj0 hk0
  | resumeSkip i g h hres hw =>
    have hi : i < s.threads.length := lt_of_get?_eq_some h
    refine ⟨by simpa using hlen, hcnt, hmb, ?_, ?_, ?_⟩
    · intro j g2 hj
      rcases get?_set_cases hi hj with ⟨_, hbad⟩ | ⟨_, hj0⟩
      · exact DPC.noConfusion hbad
      · exact hwb j g2 hj0
    · intro j g2 hj
      rcases get?_set_cases hi hj with ⟨_, hbad⟩ | ⟨_, hj0⟩
      · exact DPC.noConfusion hbad
      · exact hmg j g2 hj0
    · intro j k g2 hj hk
      rcases get?_set_cases hi hj with ⟨_, hbad⟩ | ⟨_, hj0⟩
      · exact DPC.noConfusion hbad
      · rcases get?_set_cases hi hk with ⟨_, hbad⟩ | ⟨_, hk0⟩
        · exact DPC.noConfusion hbad
        · exact huniq j k g2 hj0 hk0
  | resumeMeasure i g h hres hw =>
    have hi : i < s.threads.length := lt_of_get?_eq_some h
    refine ⟨by simpa using hlen, by rw [hcnt], ?_, ?_, ?_, ?_⟩
    · intro g2 hg2
      rw [← Option.some_inj.mp hg2]
      exact Nat.lt_succ_self _
    · intro j g2 hj
      rcases get?_set_cases hi hj with ⟨_, hbad⟩ | ⟨_, hj0⟩
      · exact DPC.noConfusion hbad
      · exact Nat.lt_succ_of_lt (hwb j g2 hj0)
    · intro j g2 hj
      rcases get?_set_cases hi hj with ⟨_, he⟩ | ⟨_, hj0⟩
      · rw [DPC.measuring.inj he]
        exact Nat.lt_succ_self _
      · exact Nat.lt_succ_of_lt (hmg j g2 hj0)
    · intro j k g2 hj hk
      rcases get?_set_cases hi hj with ⟨hji, he⟩ | ⟨_, hj0⟩
      · rcases get?_set_cases hi hk with ⟨hki, _⟩ | ⟨_, hk0⟩
        · rw [hji, hki]
        · rw [DPC.measuring.inj he] at hk0
          exact absurd (hmg k s.nextGen hk0) (Nat.lt_irrefl _)
      · rcases get?_set_cases hi hk with ⟨_, he2⟩ | ⟨_, hk0⟩
        · rw [DPC.measuring.inj he2] at hj0
          exact absurd (hmg j s.nextGen hj0) (Nat.lt_irrefl _)
        · exact huniq j k g2 hj0 hk0
  | completeMeasure i g w hgt hP h =>
    have hi : i < s.threads.length := lt_of_get?_eq_some h
    refine ⟨by simpa using hlen, hcnt, ?_, ?_, ?_, ?_⟩
    · intro g2 hg2
      exact Option.noConfusion hg2
    · intro j g2 hj
      rcases get?_set_cases hi hj with ⟨_, hbad⟩ | ⟨_, hj0⟩
      · exact DPC.noConfusion hbad
      · exact hwb j g2 hj0
    · intro j g2 hj
      rcases get?_set_cases hi hj with ⟨_, hbad⟩ | ⟨_, hj0⟩
      · exact DPC.noConfusion hbad
      · exact hmg j g2 hj0
    · intro j k g2 hj hk
      rcases get?_set_cases hi hj with ⟨_, hbad⟩ | ⟨_, hj0⟩
      · exact DPC.noConfusion hbad
      · rcases get?_set_cases hi hk with ⟨_, hbad⟩ | ⟨_, hk0⟩
        · exact DPC.noConfusion hbad
        · exact huniq j k g2 hj0 hk0

theorem dimInv_reach {P : Nat → Prop} {n : Nat} {s : DimState}
    (h : DReach P n s) : DimInv n s := by
  induction h with
  | init => exact dimInv_init n
  | step _ hstep ih => exact dimInv_step ih hstep

theorem dimInvNZ_step {P : Nat → Prop} {n : Nat} {s t : DimState}
    (HP : ∀ w, P w → 0 < w) (hg : DimInv n s) (hs : DimInvNZ s)
    (hstep : DStep P s t) : DimInvNZ t := by
  obtain ⟨hlen, hcnt, hmb, hwb, hmg, huniq⟩ := hg
  cases hstep with
  | enterWait i g h hm =>
    have hi : i < s.threads.length := lt_of_get?_eq_some h
    rcases hs with ⟨h0, hm0, _, _, _⟩ | ⟨h1, hm1, hw1, hh1, ⟨jm, hjm⟩, hall⟩
      | ⟨pw, phgt, _, _, hmk, _, _, _⟩
    · rw [hm0] at hm; exact Option.noConfusion hm
    · refine Or.inr (Or.inl ⟨h1, hm1, hw1, hh1, ⟨jm, ?_⟩, ?_⟩)
      · have hji : jm ≠ i := by
          intro he; rw [he, h] at hjm
          exact DPC.noConfusion (Option.some_inj.mp hjm)
        rwa [get?_set_other _ _ (fun hij => hji hij.symm)]
      · intro j pc hj
        rcases get?_set_cases hi hj with ⟨_, rfl⟩ | ⟨_, hj0⟩
        · have hg0 : g = 0 := by
            rw [hm1] at hm; exact (Option.some_inj.mp hm).symm
          rw [hg0]
          exact Or.inr (Or.inl rfl)
        · exact hall j pc hj0
    · rw [hmk] at hm; exact Option.noConfusion hm
  | skipFromStart i h hm hw =>
    have hi : i < s.threads.length := lt_of_get?_eq_some h
    rcases hs with ⟨_, _, hw0, _, _⟩ | ⟨_, _, hw1, _, _, _⟩
      | ⟨pw, phgt, hwpos, h1, hmk, hww, hhh, hall⟩
    · rw [hw0] at hw; exact Bool.noConfusion hw
    · rw [hw1] at hw; exact Bool.noConfusion hw
    · refine Or.inr (Or.inr ⟨pw, phgt, hwpos, h1, hmk, hww, hhh, ?_⟩)
      intro j pc hj
      rcases get?_set_cases hi hj with ⟨_, rfl⟩ | ⟨_, hj0⟩
      · rw [hww, hhh]
        exact Or.inr (Or.inr rfl)
      · exact hall j pc hj0
  | beginMeasure i h hm hw =>
    have hi : i < s.threads.length := lt_of_get?_eq_some h
    rcases hs with ⟨h0, _, hw0, hh0, hall⟩ | ⟨_, hm1, _, _, _, _⟩
      | ⟨pw, phgt, hwpos, _, _, hww, _, _⟩
    · refine Or.inr (Or.inl ⟨by show s.nextGen + 1 = 1; omega, by rw [h0], hw0, hh0,
        ⟨i, ?_⟩, ?_⟩)
      · rw [h0]
        exact get?_set_self s.threads i (DPC.measuring 0) hi
      · intro j pc hj
        rcases get?_set_cases hi hj with ⟨_, rfl⟩ | ⟨_, hj0⟩
        · rw [h0]
          exact Or.inr (Or.inr rfl)
        · rw [hall j pc hj0]
          exact Or.inl rfl
    · rw [hm1] at hm; exact Option.noConfusion hm
    · rw [hww, truthyW_of_pos hwpos] at hw
      exact Bool.noConfusion hw
  | resumeSkip i g h hres hw =>
    have hi : i < s.threads.length := lt_of_get?_eq_some h
    rcases hs with ⟨_, _, _, _, hall⟩ | ⟨_, _, hw1, _, _, _⟩
      | ⟨pw, phgt, hwpos, h1, hmk, hww, hhh, hall⟩
    · exact DPC.noConfusion (hall i _ h)
    · rw [hw1] at hw; exact Bool.noConfusion hw
    · refine Or.inr (Or.inr ⟨pw, phgt, hwpos, h1, hmk, hww, hhh, ?_⟩)
      intro j pc hj
      rcases get?_set_cases hi hj with ⟨_, rfl⟩ | ⟨_, hj0⟩
      · rw [hww, hhh]
        exact Or.inr (Or.inr rfl)
      · exact hall j pc hj0
  | resumeMeasure i g h hres hw =>
    have hi : i < s.threads.length := lt_of_get?_eq_some h
    rcases hs with ⟨_, _, _, _, hall⟩ | ⟨_, _, _, _, ⟨jm, hjm⟩, hall⟩
      | ⟨pw, phgt, hwpos, _, _, hww, _, _⟩
    · exact DPC.noConfusion (hall i _ h)
    · have hg0 : g = 0 := by
        rcases hall i _ h with hbad | hok | hbad
        · exact DPC.noConfusion hbad
        · exact DPC.waiting.inj hok
        · exact DPC.noConfusion hbad
      rw [hg0] at hres
      exact absurd hjm (hres jm)
    · rw [hww, truthyW_of_pos hwpos] at hw
      exact Bool.noConfusion hw
  | completeMeasure i g w hgt hP h =>
    have hi : i < s.threads.length := lt_of_get?_eq_some h
    rcases hs with ⟨_, _, _, _, hall⟩ | ⟨h1, _, _, _, _, hall⟩
      | ⟨pw, phgt, _, _, _, _, _, hall⟩
    · exact DPC.noConfusion (hall i _ h)
    · have hg0 : g = 0 := by
        rcases hall i _ h with hbad | hbad | hok
        · exact DPC.noConfusion hbad
        · exact DPC.noConfusion hbad
        · exact DPC.measuring.inj hok
      rw [hg0] at h
      refine Or.inr (Or.inr ⟨w, hgt, HP w hP, h1, rfl, rfl, rfl, ?_⟩)
      intro j pc hj
      rcases get?_set_cases hi hj with ⟨_, rfl⟩ | ⟨hji, hj0⟩
      · exact Or.inr (Or.inr rfl)
      · rcases hall j pc hj0 with hpc | hpc | hpc
        · exact Or.inl hpc
        · exact Or.inr (Or.inl hpc)
        · rw [hpc] at hj0
          exact absurd (huniq j i 0 hj0 h) hji
    · rcases hall i _ h with hbad | hbad | hbad
      · exact DPC.noConfusion hbad
      · exact DPC.noConfusion hbad
      · exact DPC.noConfusion hbad

theorem dimInvNZ_reach {P : Nat → Prop} {n : Nat} {s : DimState}
    (HP : ∀ w, P w → 0 < w) (h : DReach P n s) : DimInvNZ s := by
  induction h with
  | init => exact dimInvNZ_init n
  | step hr hstep ih => exact dimInvNZ_step HP (dimInv_reach hr) ih hstep

/-- Final state of a two-instance run in which the first measurement
reads a zero client width (e.g. the host was hidden while measuring):
the resumed waiter re-measures, so two measurement passes run and the
two instances observe different dimensions. -/
def dimCexState : DimState :=
  { entryW := some 5, entryH := some 9, marker := none, nextGen := 2,
    threads := [.done (some 0, some 7), .done (some 5, some 9)], measureCount := 2 }

/-- State of a three-instance run after a zero-width first measurement:
instance 2 arrived fresh and started measuring (generation 1), then
waiter 1 resumed — checking only `cacheEntry.width`, not the registry —
and started measuring too (generation 2, overwriting the registry):
two measurement passes are in flight at once. -/
def dimConcurrentState : DimState :=
  { entryW := some 0, entryH := some 7, marker := some 2, nextGen := 3,
    threads := [.done (some 0, some 7), .measuring 2, .measuring 1],
    measureCount := 3 }

/-- C6 counterexample: the claim — measurement runs at most once per
deck URL, later instances skip once width/height are recorded, and
while a measurement is in flight other instances await the marker — is
false on the code.  The skip guard is JS truthiness of
`cacheEntry.width`, so a recorded width of 0 is not treated as
recorded: in the first reachable interleaving two passes run
(`measureCount = 2`) and the two instances observe different
dimensions; in the second, a resumed waiter (which re-checks only the
entry width, never the registry) measures concurrently with a fresh
instance's in-flight measurement. -/
theorem single_measurement_cex :
    (DReach (fun _ => True) 2 dimCexState
      ∧ dimCexState.measureCount = 2
      ∧ dimCexState.threads.get? 0 = some (.done (some 0, some 7))
      ∧ dimCexState.threads.get? 1 = some (.done (some 5, some 9)))
    ∧ (DReach (fun _ => True) 3 dimConcurrentState
      ∧ dimConcurrentState.threads.get? 1 = some (.measuring 2)
      ∧ dimConcurrentState.threads.get? 2 = some (.measuring 1)) := by
  constructor
  · refine ⟨?_, rfl, rfl, rfl⟩
    have h0 : DReach (fun _ => True) 2 (initDimState 2) := DReach.init
    have h1 := DReach.step h0 (DStep.beginMeasure (initDimState 2) 0 rfl rfl rfl)
    have h2 := DReach.step h1 (DStep.enterWait _ 1 0 rfl rfl)
    have h3 := DReach.step h2 (DStep.completeMeasure _ 0 0 0 7 trivial rfl)
    have h4 := DReach.step h3 (DStep.resumeMeasure _ 1 0 rfl ?_ rfl)
    · have h5 := DReach.step h4 (DStep.completeMeasure _ 1 1 5 9 trivial rfl)
      exact h5
    · intro j hj
      rcases j with _ | _ | k
      · exact absurd hj (by decide)
      · exact absurd hj (by decide)
      · exact Option.noConfusion hj
  · refine ⟨?_, rfl, rfl⟩
    have h0 : DReach (fun _ => True) 3 (initDimState 3) := DReach.init
    have h1 := DReach.step h0 (DStep.beginMeasure (initDimState 3) 0 rfl rfl rfl)
    have h2 := DReach.step h1 (DStep.enterWait _ 1 0 rfl rfl)
    have h3 := DReach.step h2 (DStep.completeMeasure _ 0 0 0 7 trivial rfl)
    have h4 := DReach.step h3 (DStep.beginMeasure _ 2 rfl rfl rfl)
    have h5 := DReach.step h4 (DStep.resumeMeasure _ 1 0 rfl ?_ rfl)
    · exact h5
    · intro j hj
      rcases j with _ | _ | _ | k
      · exact absurd hj (by decide)
      · exact absurd hj (by decide)
      · exact absurd hj (by decide)
      · exact Option.noConfusion hj

/-- C6 (amended): provided every measurement reads a nonzero client
width, the intrinsic-dimension measurement runs at most once per deck
URL, at most one measurement is in flight at a time, all completed
instances observe the same recorded intrinsic width and height, and
once a (nonzero) width is recorded no step measures again or changes
the recorded dimensions.  A recorded width of zero is treated as
unmeasured — the skip guard is JS truthiness of `cacheEntry.width` —
and re-opens measurement. -/
theorem single_measurement_amended (P : Nat → Prop) (n : Nat) (s : DimState)
    (hr : DReach P n s) (HP : ∀ w, P w → 0 < w) :
    (∀ i j g g2, s.threads.get? i = some (.measuring g) →
      s.threads.get? j = some (.measuring g2) → i = j)
    ∧ s.measureCount ≤ 1
    ∧ (∀ i o, s.threads.get? i = some (.done o) → o = (s.entryW, s.entryH))
    ∧ (truthyW s.entryW = true → ∀ t, DStep P s t →
        t.measureCount = s.measureCount ∧ t.entryW = s.entryW ∧ t.entryH = s.entryH) := by
  obtain ⟨hlen, hcnt, hmb, hwb, hmg, huniq⟩ := dimInv_reach hr
  have hnz := dimInvNZ_reach HP hr
  refine ⟨?_, ?_, ?_, ?_⟩
  · intro i j g g2 hi hj
    rcases hnz with ⟨_, _, _, _, hall⟩ | ⟨_, _, _, _, _, hall⟩
      | ⟨pw, phgt, _, _, _, _, _, hall⟩
    · exact DPC.noConfusion (hall i _ hi)
    · have hg0 : g = 0 := by
        rcases hall i _ hi with hbad | hbad | hok
        · exact DPC.noConfusion hbad
        · exact DPC.noConfusion hbad
        · exact DPC.measuring.inj hok
      have hg20 : g2 = 0 := by
        rcases hall j _ hj with hbad | hbad | hok
        · exact DPC.noConfusion hbad
        · exact DPC.noConfusion hbad
        · exact DPC.measuring.inj hok
      rw [hg0] at hi
      rw [hg20] at hj
      exact huniq i j 0 hi hj
    · rcases hall i _ hi with hbad | hbad | hbad
      · exact DPC.noConfusion hbad
      · exact DPC.noConfusion hbad
      · exact DPC.noConfusion hbad
  · rw [hcnt]
    rcases hnz with ⟨h0, _, _, _, _⟩ | ⟨h1, _, _, _, _, _⟩
      | ⟨_, _, _, h1, _, _, _, _⟩
    · omega
    · omega
    · omega
  · intro i o hi
    rcases hnz with ⟨_, _, _, _, hall⟩ | ⟨_, _, _, _, _, hall⟩
      | ⟨pw, phgt, _, _, _, hww, hhh, hall⟩
    · exact DPC.noConfusion (hall i _ hi)
    · rcases hall i _ hi with hbad | hbad | hbad
      · exact DPC.noConfusion hbad
      · exact DPC.noConfusion hbad
      · exact DPC.noConfusion hbad
    · rcases hall i _ hi with hbad | hbad | hok
      · exact DPC.noConfusion hbad
      · exact DPC.noConfusion hbad
      · rw [DPC.done.inj hok, hww, hhh]
  · intro htw t hstep
    rcases hnz with ⟨_, _, hw0, _, _⟩ | ⟨_, _, hw1, _, _, _⟩
      | ⟨pw, phgt, hwpos, _, _, hww, hhh, hall⟩
    · rw [hw0] at htw; exact Bool.noConfusion htw
    · rw [hw1] at htw; exact Bool.noConfusion htw
    · cases hstep with
      | enterWait i g h hm => exact ⟨rfl, rfl, rfl⟩
      | skipFromStart i h hm hw => exact ⟨rfl, rfl, rfl⟩
      | beginMeasure i h hm hw => rw [htw] at hw; exact Bool.noConfusion hw
      | resumeSkip i g h hres hw => exact ⟨rfl, rfl, rfl⟩
      | resumeMeasure i g h hres hw => rw [htw] at hw; exact Bool.noConfusion hw
      | completeMeasure i g w hgt hP h =>
        rcases hall i _ h with hbad | hbad | hbad
        · exact DPC.noConfusion hbad
        · exact DPC.noConfusion hbad
        · exact DPC.noConfusion hbad

/-- Final state of a two-instance run whose single measurement reads a
nonzero width: one pass, both instances observe (4, 3). -/
def dimOkState : DimState :=
  { entryW := some 4, entryH := some 3, marker := none, nextGen := 1,
    threads := [.done (some 4, some 3), .done (some 4, some 3)], measureCount := 1 }

theorem dimOkState_reach : DReach (fun w => 0 < w) 2 dimOkState := by
  have h0 : DReach (fun w => 0 < w) 2 (initDimState 2) := DReach.init
  have h1 := DReach.step h0 (DStep.beginMeasure (initDimState 2) 0 rfl rfl rfl)
  have h2 := DReach.step h1 (DStep.enterWait _ 1 0 rfl rfl)
  have h3 := DReach.step h2 (DStep.completeMeasure _ 0 0 4 3 (by decide) rfl)
  have h4 := DReach.step h3 (DStep.resumeSkip _ 1 0 rfl ?_ rfl)
  · exact h4
  · intro j hj
    rcases j with _ | _ | k
    · exact absurd hj (by decide)
    · exact absurd hj (by decide)
    · exact Option.noConfusion hj

theorem single_measurement_amended_witness :
    dimOkState.measureCount ≤ 1
    ∧ (some 4, some 3) = (dimOkState.entryW, dimOkState.entryH) := by
  have h := single_measurement_amended (fun w => 0 < w) 2 dimOkState dimOkState_reach
    (fun w hw => hw)
  exact ⟨h.2.1, h.2.2.1 0 (some 4, some 3) rfl⟩

/-! ## The per-instance fetch-and-render lifecycle
(`#fetchAndRender`, lines 198-233, and the `src` setter, lines 81-107)

`#fetchAndRender` increments `#renderCycleID` on entry, clears
`#renderCyclePlanned`, sets `aria-busy`, awaits `#fetch`, re-checks
`#renderCyclePlanned || #renderCycleID !== cycleId`, awaits `#render`,
re-checks again, and only then clears `aria-busy`, sets `loaded` and
fires the `load` event.  The `src` setter updates `#src` and, when the
value changed and no cycle is planned, sets `#renderCyclePlanned` and
schedules `#fetchAndRender` for the next tick.

The k-th invocation of `#fetchAndRender` (position k of `cycles`) has
cycle id `k + 1`, so `#renderCycleID = cycles.length`.  An abandoned
cycle records whether, at the await point where it abandoned, its
recorded cycle id differed from the instance's current cycle id
(`sawIdMismatch`); the abandon guard itself is the source's disjunction
`planned || currentId ≠ recordedId`.  `loadLog` records, for each
`load` event fired, the firing cycle's id and the value of
`#renderCycleID` at that moment.

`#render` serializes its body behind the single-slot `#renderPossible`
promise, so render bodies of overlapping cycles never interleave; a
cycle's render is therefore one atomic completion event (`renderDone`),
and the scheduler chooses the order of completions. -/

/-- State of one invocation of `#fetchAndRender`. -/
inductive CycleState
  | fetching
  | rendering
  | rendered (srcR : String)
  | finished (srcR : String)
  | abandoned (sawIdMismatch : Bool)
deriving DecidableEq, Repr

/-- One component instance. -/
structure InstState where
  planned : Bool
  renderCycleID : Nat
  src : String
  ariaBusy : Option Bool
  loaded : Bool
  cycles : List CycleState
  loadLog : List (Nat × Nat)
deriving DecidableEq, Repr

/-- Fresh instance whose `#src` is its base URI. -/
def initInstState (base : String) : InstState :=
  { planned := false, renderCycleID := 0, src := base, ariaBusy := none,
    loaded := false, cycles := [], loadLog := [] }

/-- One atomic segment of the instance lifecycle. -/
inductive IStep : InstState → InstState → Prop
  | setSrc (s : InstState) (v : String) (hne : v ≠ s.src) :
      IStep s { s with src := v, planned := true }
  | startCycle (s : InstState) (hp : s.planned = true) :
      IStep s { s with planned := false, renderCycleID := s.renderCycleID + 1,
                       ariaBusy := some true, cycles := s.cycles ++ [.fetching] }
  | fetchDoneOk (s : InstState) (i : Nat)
      (h : s.cycles.get? i = some .fetching)
      (hpl : s.planned = false) (hid : s.renderCycleID = i + 1) :
      IStep s { s with cycles := s.cycles.set i .rendering }
  | fetchDoneStale (s : InstState) (i : Nat)
      (h : s.cycles.get? i = some .fetching)
      (hst : s.planned = true ∨ s.renderCycleID ≠ i + 1) :
      IStep s { s with cycles := s.cycles.set i (.abandoned (decide (s.renderCycleID ≠ i + 1))) }
  | renderDone (s : InstState) (i : Nat)
      (h : s.cycles.get? i = some .rendering) :
      IStep s { s with cycles := s.cycles.set i (.rendered s.src) }
  | finishOk (s : InstState) (i : Nat) (sr : String)
      (h : s.cycles.get? i = some (.rendered sr))
      (hpl : s.planned = false) (hid : s.renderCycleID = i + 1) :
      IStep s { s with cycles := s.cycles.set i (.finished sr),
                       ariaBusy := some false, loaded := true,
                       loadLog := s.loadLog ++ [(i + 1, s.renderCycleID)] }
  | finishStale (s : InstState) (i : Nat) (sr : String)
      (h : s.cycles.get? i = some (.rendered sr))
      (hst : s.planned = true ∨ s.renderCycleID ≠ i + 1) :
      IStep s { s with cycles := s.cycles.set i (.abandoned (decide (s.renderCycleID ≠ i + 1))) }

/-- States reachable by one instance from its fresh state. -/
inductive IReach (base : String) : InstState → Prop
  | init : IReach base (initInstState base)
  | step {s t : InstState} : IReach base s → IStep s t → IReach base t

/-- Inductive invariant of the instance lifecycle. -/
def InstInv (s : InstState) : Prop :=
  s.renderCycleID = s.cycles.length ∧
  (∀ p ∈ s.loadLog, p.1 = p.2) ∧
  (∀ p ∈ s.loadLog, ∃ sr, s.cycles.get? (p.1 - 1) = some (.finished sr)) ∧
  (∀ p ∈ s.loadLog, 1 ≤ p.1 ∧ p.1 ≤ s.cycles.length) ∧
  (s.loadLog.map Prod.fst).Pairwise (· < ·) ∧
  (∀ i sr, s.cycles.get? i = some (.finished sr) → (i + 1, i + 1) ∈ s.loadLog)

theorem get?_append_cases {α : Type} {l : List α} {a x : α} {i : Nat}
    (h : (l ++ [a]).get? i = some x) :
    (i < l.length ∧ l.get? i = some x) ∨ (i = l.length ∧ x = a) := by
  rcases Nat.lt_trichotomy i l.length with hlt | heq | hgt
  · exact Or.inl ⟨hlt, by rwa [List.get?_append hlt] at h⟩
  · subst heq
    rw [List.get?_concat_length] at h
    exact Or.inr ⟨rfl, (Option.some_inj.mp h).symm⟩
  · exfalso
    have hle : (l ++ [a]).length ≤ i := by simp; omega
    rw [List.get?_eq_none.mpr hle] at h
    exact Option.noConfusion h

theorem instInv_init (base : String) : InstInv (initInstState base) := by
  refine ⟨rfl, ?_, ?_, ?_, List.Pairwise.nil, ?_⟩
  · intro p hp; exact absurd hp (List.not_mem_nil p)
  · intro p hp; exact absurd hp (List.not_mem_nil p)
  · intro p hp; exact absurd hp (List.not_mem_nil p)
  · intro i sr h; exact Option.noConfusion h

theorem instInv_step {s t : InstState} (hs : InstInv s) (hstep : IStep s t) : InstInv t := by
  obtain ⟨h1, h2, h3, h4, h5, h6⟩ := hs
  cases hstep with
  | setSrc v hne =>
    exact ⟨h1, h2, h3, h4, h5, h6⟩
  | startCycle hp =>
    refine ⟨by simp [h1], h2, ?_, ?_, h5, ?_⟩
    · intro p hp2
      obtain ⟨sr, hv⟩ := h3 p hp2
      obtain ⟨hp1, hple⟩ := h4 p hp2
      have hlt : p.1 - 1 < s.cycles.length := by omega
      exact ⟨sr, by rwa [List.get?_append hlt]⟩
    · intro p hp2
      obtain ⟨hp1, hple⟩ := h4 p hp2
      simp only [List.length_append, List.length_singleton]
      omega
    · intro i sr hv
      rcases get?_append_cases hv with ⟨_, hv0⟩ | ⟨_, hbad⟩
      · exact h6 i sr hv0
      · exact CycleState.noConfusion hbad
  | fetchDoneOk i h hpl hid =>
    have hi : i < s.cycles.length := lt_of_get?_eq_some h
    refine ⟨by simpa using h1, h2, ?_, by simpa using h4, h5, ?_⟩
    · intro p hp2
      obtain ⟨sr, hv⟩ := h3 p hp2
      by_cases hpi : p.1 - 1 = i
      · rw [hpi, h] at hv
        exact CycleState.noConfusion (Option.some_inj.mp hv)
      · exact ⟨sr, by rwa [get?_set_other _ _ (fun hij => hpi hij.symm)]⟩
    · intro j sr hv
      rcases get?_set_cases hi hv with ⟨_, hbad⟩ | ⟨_, hv0⟩
      · exact CycleState.noConfusion hbad
      · exact h6 j sr hv0
  | fetchDoneStale i h hst =>
    have hi : i < s.cycles.length := lt_of_get?_eq_some h
    refine ⟨by simpa using h1, h2, ?_, by simpa using h4, h5, ?_⟩
    · intro p hp2
      obtain ⟨sr, hv⟩ := h3 p hp2
      by_cases hpi : p.1 - 1 = i
      · rw [hpi, h] at hv
        exact CycleState.noConfusion (Option.some_inj.mp hv)
      · exact ⟨sr, by rwa [get?_set_other _ _ (fun hij => hpi hij.symm)]⟩
    · intro j sr hv
      rcases get?_set_cases hi hv with ⟨_, hbad⟩ | ⟨_, hv0⟩
      · exact CycleState.noConfusion hbad
      · exact h6 j sr hv0
  | renderDone i h =>
    have hi : i < s.cycles.length := lt_of_get?_eq_some h
    refine ⟨by simpa using h1, h2, ?_, by simpa using h4, h5, ?_⟩
    · intro p hp2
      obtain ⟨sr, hv⟩ := h3 p hp2
      by_cases hpi : p.1 - 1 = i
      · rw [hpi, h] at hv
        exact CycleState.noConfusion (Option.some_inj.mp hv)
      · exact ⟨sr, by rwa [get?_set_other _ _ (fun hij => hpi hij.symm)]⟩
    · intro j sr hv
      rcases get?_set_cases hi hv with ⟨_, hbad⟩ | ⟨_, hv0⟩
      · exact CycleState.noConfusion hbad
      · exact h6 j sr hv0
  | finishOk i sr h hpl hid =>
    have hi : i < s.cycles.length := lt_of_get?_eq_some h
    have hmem : ∀ p ∈ s.loadLog, p.1 < i + 1 := by
      intro p hp2
      obtain ⟨hp1, hple⟩ := h4 p hp2
      by_cases hpi : p.1 = i + 1
      · exfalso
        obtain ⟨sr2, hv⟩ := h3 p hp2
        rw [hpi] at hv
        simp only [Nat.add_sub_cancel] at hv
        rw [h] at hv
        exact CycleState.noConfusion (Option.some_inj.mp hv)
      · have : s.cycles.length = i + 1 := by omega
        omega
    refine ⟨by simpa using h1, ?_, ?_, ?_, ?_, ?_⟩
    · intro p hp2
      rcases List.mem_append.mp hp2 with hold | hnew
      · exact h2 p hold
      · rw [List.mem_singleton.mp hnew, hid]
    · intro p hp2
      rcases List.mem_append.mp hp2 with hold | hnew
      · obtain ⟨sr2, hv⟩ := h3 p hold
        by_cases hpi : p.1 - 1 = i
        · rw [hpi, h] at hv
          exact CycleState.noConfusion (Option.some_inj.mp hv)
        · exact ⟨sr2, by rwa [get?_set_other _ _ (fun hij => hpi hij.symm)]⟩
      · rw [List.mem_singleton.mp hnew]
        simp only [Nat.add_sub_cancel]
        exact ⟨sr, get?_set_self _ _ _ hi⟩
    · intro p hp2
      rcases List.mem_append.mp hp2 with hold | hnew
      · obtain ⟨hp1, hple⟩ := h4 p hold
        simp only [List.length_set]
        omega
      · rw [List.mem_singleton.mp hnew]
        simp only [List.length_set]
        omega
    · rw [List.map_append]
      rw [List.pairwise_append]
      refine ⟨h5, List.pairwise_singleton _ _, ?_⟩
      intro a ha b hb
      obtain ⟨p, hp2, rfl⟩ := List.mem_map.mp ha
      simp only [List.map_cons, List.map_nil, List.mem_singleton] at hb
      rw [hb]
      exact hmem p hp2
    · intro j sr2 hv
      rcases get?_set_cases hi hv with ⟨hji, he⟩ | ⟨_, hv0⟩
      · subst hji
        refine List.mem_append.mpr (Or.inr ?_)
        rw [hid]
        exact List.mem_singleton.mpr rfl
      · exact List.mem_append.mpr (Or.inl (h6 j sr2 hv0))
  | finishStale i sr h hst =>
    have hi : i < s.cycles.length := lt_of_get?_eq_some h
    refine ⟨by simpa using h1, h2, ?_, by simpa using h4, h5, ?_⟩
    · intro p hp2
      obtain ⟨sr2, hv⟩ := h3 p hp2
      by_cases hpi : p.1 - 1 = i
      · rw [hpi, h] at hv
        exact CycleState.noConfusion (Option.some_inj.mp hv)
      · exact ⟨sr2, by rwa [get?_set_other _ _ (fun hij => hpi hij.symm)]⟩
    · intro j sr2 hv
      rcases get?_set_cases hi hv with ⟨_, hbad⟩ | ⟨_, hv0⟩
      · exact CycleState.noConfusion hbad
      · exact h6 j sr2 hv0

theorem instInv_reach {base : String} {s : InstState} (h : IReach base s) : InstInv s := by
  induction h with
  | init => exact instInv_init base
  | step _ hstep ih => exact instInv_step ih hstep

/-- State reached when `src` is set a second time while the first cycle
awaits its fetch: the first cycle has abandoned, with `sawIdMismatch =
false` (its recorded cycle id still equalled the current id). -/
def c2CexState : InstState :=
  { planned := true, renderCycleID := 1, src := "https://example.org/b.html",
    ariaBusy := some true, loaded := false,
    cycles := [.abandoned false], loadLog := [] }

/-- C2 counterexample: the claim states that a superseded first cycle
"detects at each await point that its recorded cycle ID no longer
equals the instance's current cycle ID".  In this reachable
interleaving (`src` set to a second value while the first cycle awaits
`#fetch`, before the second cycle starts), the first cycle abandons at
its await point while its recorded cycle id (1) still equals the
instance's current cycle id (1): detection happened through the
`#renderCyclePlanned` flag, not through a cycle-id mismatch. -/
theorem stale_cycle_cex :
    IReach "https://example.org/" c2CexState
    ∧ c2CexState.cycles.get? 0 = some (.abandoned false)
    ∧ c2CexState.renderCycleID = 1 := by
  refine ⟨?_, rfl, rfl⟩
  have h0 : IReach "https://example.org/" (initInstState "https://example.org/") :=
    IReach.init
  have h1 := IReach.step h0 (IStep.setSrc _ "https://example.org/a.html" (by decide))
  have h2 := IReach.step h1 (IStep.startCycle _ rfl)
  have h3 := IReach.step h2 (IStep.setSrc _ "https://example.org/b.html" (by decide))
  have h4 := IReach.step h3 (IStep.fetchDoneStale _ 0 rfl (Or.inl rfl))
  exact h4

/-- C2 (amended): if `src` is assigned twice before the first
fetch-and-render cycle settles, only the effects of the second value
are observable: the superseded cycle detects at each await point that a
new cycle has been planned or that its recorded cycle id no longer
equals the instance's current cycle id, abandons silently, and never
fires a `load` event; cycle ids are strictly increasing (cycle k+1 is
the k-th started cycle), only a cycle whose id equals the current
`#renderCycleID` fires `load`, and each cycle fires at most once. -/
theorem stale_cycle_amended (base : String) (s : InstState) (hr : IReach base s) :
    s.renderCycleID = s.cycles.length
    ∧ (∀ p ∈ s.loadLog, p.1 = p.2)
    ∧ (∀ k b, s.cycles.get? k = some (.abandoned b) → ∀ d, (k + 1, d) ∉ s.loadLog)
    ∧ (s.loadLog.map Prod.fst).Pairwise (· < ·) := by
  obtain ⟨h1, h2, h3, h4, h5, h6⟩ := instInv_reach hr
  refine ⟨h1, h2, ?_, h5⟩
  intro k b hk d hmem
  obtain ⟨sr, hv⟩ := h3 (k + 1, d) hmem
  simp only [Nat.add_sub_cancel] at hv
  rw [hk] at hv
  exact CycleState.noConfusion (Option.some_inj.mp hv)

/-- Final state of the two-assignment scenario: the first cycle
abandoned, the second completed with the second `src` value; exactly
one `load` event fired, by cycle 2 while cycle 2 was current. -/
def c2FinalState : InstState :=
  { planned := false, renderCycleID := 2, src := "https://example.org/b.html",
    ariaBusy := some false, loaded := true,
    cycles := [.abandoned false, .finished "https://example.org/b.html"],
    loadLog := [(2, 2)] }

theorem c2FinalState_reach : IReach "https://example.org/" c2FinalState := by
  have h0 : IReach "https://example.org/" (initInstState "https://example.org/") :=
    IReach.init
  have h1 := IReach.step h0 (IStep.setSrc _ "https://example.org/a.html" (by decide))
  have h2 := IReach.step h1 (IStep.startCycle _ rfl)
  have h3 := IReach.step h2 (IStep.setSrc _ "https://example.org/b.html" (by decide))
  have h4 := IReach.step h3 (IStep.fetchDoneStale _ 0 rfl (Or.inl rfl))
  have h5 := IReach.step h4 (IStep.startCycle _ rfl)
  have h6 := IReach.step h5 (IStep.fetchDoneOk _ 1 rfl rfl rfl)
  have h7 := IReach.step h6 (IStep.renderDone _ 1 rfl)
  have h8 := IReach.step h7 (IStep.finishOk _ 1 "https://example.org/b.html" rfl rfl rfl)
  exact h8

theorem stale_cycle_amended_witness :
    (∀ d, (1, d) ∉ c2FinalState.loadLog)
    ∧ c2FinalState.renderCycleID = c2FinalState.cycles.length
    ∧ c2FinalState.loaded = true
    ∧ c2FinalState.cycles.get? 1 = some (.finished "https://example.org/b.html") := by
  have h := stale_cycle_amended "https://example.org/" c2FinalState c2FinalState_reach
  exact ⟨h.2.2.1 0 false rfl, h.1, rfl, rfl⟩

/-- C3: for the box the code applies to the host — width `w` from the
`width` attribute, height derived by `scaleContent` as
`intrinsicH * scale` — the applied scale `w / intrinsicW` equals
`min (w / intrinsicW, height / intrinsicH)` (contain-fit, anchored
top-left), and the scaled content (`intrinsicW * scale` by
`intrinsicH * scale`) never exceeds that box on either axis; for PDF
content the applied scale is the width ratio times the fixed 72/96
point-to-pixel factor, and the rendered page width never exceeds the
component width. -/
theorem contain_fit_scale (w cw ch vw : ℚ) (hw : 0 ≤ w) (hcw : 0 < cw) (hch : 0 < ch)
    (hvw : 0 < vw) :
    (scaleContent w cw ch).1 = min (w / cw) ((scaleContent w cw ch).2 / ch)
    ∧ cw * (scaleContent w cw ch).1 ≤ w
    ∧ ch * (scaleContent w cw ch).1 ≤ (scaleContent w cw ch).2
    ∧ pdfScale w vw = (w / vw) * (72 / 96)
    ∧ vw * pdfScale w vw ≤ w := by
  have hchne : ch ≠ 0 := ne_of_gt hch
  have hcwne : cw ≠ 0 := ne_of_gt hcw
  have hvwne : vw ≠ 0 := ne_of_gt hvw
  simp only [scaleContent]
  refine ⟨?_, ?_, le_refl _, rfl, ?_⟩
  · rw [mul_div_cancel_left₀ _ hchne, min_self]
  · rw [mul_comm, div_mul_cancel₀ _ hcwne]
  · have h3 : vw * pdfScale w vw = w * (72 / 96) := by
      unfold pdfScale
      rw [← mul_assoc, mul_comm vw (w / vw), div_mul_cancel₀ _ hvwne]
    rw [h3]
    linarith

theorem contain_fit_scale_witness :
    (scaleContent 500 1024 640).1
        = min ((500 : ℚ) / 1024) ((scaleContent 500 1024 640).2 / 640)
    ∧ 1024 * (scaleContent 500 1024 640).1 ≤ 500
    ∧ 640 * (scaleContent 500 1024 640).1 ≤ (scaleContent 500 1024 640).2
    ∧ pdfScale 500 612 = ((500 : ℚ) / 612) * (72 / 96)
    ∧ 612 * pdfScale 500 612 ≤ 500 :=
  contain_fit_scale 500 1024 640 612 (by norm_num) (by norm_num) (by norm_num) (by norm_num)

/-- C9: assigning the unparseable value "abc" to `width` does not revert
the stored width to the default of 300: `parseInt` returns `NaN`
(modelled `none`) instead of throwing, the catch branch that would
restore `defaultWidth` never runs, and the stored width is `NaN`, with
which a later render cycle proceeds. -/
theorem width_unparseable_stays_nan :
    setWidthStored "abc" = none
    ∧ setWidthStored "abc" ≠ some (defaultWidth : Int)
    ∧ defaultWidth = 300 := by
  refine ⟨rfl, ?_, rfl⟩
  intro h
  exact Option.noConfusion h

/-- C7 counterexample: a deck whose single `.slide` element has id
"intro", addressed with the fragment "intro": the claim says extraction
locates the slide by element identifier, but the code's lookup
(`querySelectorAll('.slide')[parseInt(slideId, 10) - 1]`) only
interprets the fragment as a number, so extraction fails, while the
spec-modelled lookup succeeds. -/
theorem html_slide_lookup_cex :
    extractSlide [⟨some "intro"⟩] (some "intro") = none
    ∧ extractSlideSpecModel [⟨some "intro"⟩] "intro" = some ⟨some "intro"⟩ := by
  constructor
  · rfl
  · rfl

/-- C7 (amended): extraction locates the slide solely by interpreting
the fragment with `parseInt` as a 1-based index into the deck's ordered
`.slide` sequence; element identifiers are never consulted, and
extraction fails (feeding the fallback path) exactly when the fragment
does not parse to an index of the sequence. -/
theorem html_slide_lookup_amended (slides : List SlideElem) (frag : Option String)
    (sl : SlideElem) :
    extractSlide slides frag = some sl ↔
      ∃ i : Int, jsParseIntOpt frag = some i ∧ 1 ≤ i ∧
        slides.get? (i - 1).toNat = some sl := by
  unfold extractSlide slideAt
  cases h : jsParseIntOpt frag with
  | none => simp
  | some i =>
    by_cases h1 : 1 ≤ i
    · simp [h1]
    · simp [h1]

/-- C8: the PDF extraction succeeds exactly when the fragment matches
`page=<N>` or a bare digit string `<N>` (the regex
`^(page=)?(\d+)$`), in which case page `N = parseInt(m[2], 10)` of the
document is rendered (1-based, via `pdf.getPage`); any other fragment
string throws the "Unrecognized PDF fragment" error, which feeds the
fallback path. -/
theorem pdf_fragment_extraction :
    (∀ (s : String) (n : Nat),
      parsePDFFragment s = some n ↔
        ∃ ds : List Char, ds ≠ [] ∧ ds.all (fun c => c.isDigit) = true ∧
          (s.data = pageEqChars ++ ds ∨ s.data = ds) ∧ n = digitsVal ds)
    ∧ (∀ (src sid : String) (w : ℚ) (doc : PdfDoc) (dims : Option (Nat × Nat)),
        fragOf src = some sid → parsePDFFragment sid = none →
        renderTry src w (some (.pdf doc)) dims
          = .error ("Unrecognized PDF fragment " ++ sid))
    ∧ (∀ (src sid : String) (n : Nat) (w : ℚ) (doc : PdfDoc) (dims : Option (Nat × Nat)),
        fragOf src = some sid → parsePDFFragment sid = some n →
        1 ≤ n → n ≤ doc.numPages →
        renderTry src w (some (.pdf doc)) dims
          = .ok (.pdfPage n (pdfScale w doc.pageWidthPt))) := by
  refine ⟨?_, ?_, ?_⟩
  · intro s n
    unfold parsePDFFragment parsePDFFragmentChars
    by_cases h5 : s.data.take 5 = pageEqChars
    · simp only [h5, if_true]
      constructor
      · intro h
        by_cases hg : s.data.drop 5 ≠ [] ∧ (s.data.drop 5).all (fun c => c.isDigit) = true
        · rw [if_pos hg] at h
          refine ⟨s.data.drop 5, hg.1, hg.2, Or.inl ?_, (Option.some_inj.mp h).symm⟩
          conv_lhs => rw [← List.take_append_drop 5 s.data]
          rw [h5]
        · rw [if_neg hg] at h
          exact Option.noConfusion h
      · rintro ⟨ds, hne, hdig, hcase, hn⟩
        rcases hcase with hpg | hbare
        · have hdrop : s.data.drop 5 = ds := by
            rw [hpg]; rfl
          rw [hdrop, if_pos ⟨hne, hdig⟩, hn]
        · exfalso
          have hp5 : ds.take 5 = pageEqChars := by rw [← hbare]; exact h5
          have hpmem : 'p' ∈ ds := by
            refine List.take_subset 5 ds ?_
            rw [hp5]
            simp [pageEqChars]
          have := List.all_eq_true.mp hdig 'p' hpmem
          simp at this
    · simp only [h5, if_false]
      constructor
      · intro h
        by_cases hg : s.data ≠ [] ∧ s.data.all (fun c => c.isDigit) = true
        · rw [if_pos hg] at h
          exact ⟨s.data, hg.1, hg.2, Or.inr rfl, (Option.some_inj.mp h).symm⟩
        · rw [if_neg hg] at h
          exact Option.noConfusion h
      · rintro ⟨ds, hne, hdig, hcase, hn⟩
        rcases hcase with hpg | hbare
        · exfalso
          apply h5
          rw [hpg]
          rfl
        · rw [hbare, if_pos ⟨hne, hdig⟩, hn]
  · intro src sid w doc dims hfrag hparse
    simp [renderTry, hfrag, hparse]
  · intro src sid n w doc dims hfrag hparse hlo hhi
    simp [renderTry, hfrag, hparse, hlo, hhi]

theorem pdf_fragment_extraction_witness :
    parsePDFFragment "page=2" = some 2
    ∧ renderTry "https://example.org/slides.pdf#foo" 300 (some (.pdf ⟨10, 612⟩)) none
        = .error ("Unrecognized PDF fragment " ++ "foo")
    ∧ renderTry "https://example.org/slides.pdf#page=2" 300 (some (.pdf ⟨10, 612⟩)) none
        = .ok (.pdfPage 2 (pdfScale 300 612)) := by
  refine ⟨?_, ?_, ?_⟩
  · exact (pdf_fragment_extraction.1 "page=2" 2).mpr
      ⟨['2'], by decide, by decide, Or.inl rfl, rfl⟩
  · exact pdf_fragment_extraction.2.1 "https://example.org/slides.pdf#foo" "foo"
      300 ⟨10, 612⟩ none rfl rfl
  · exact pdf_fragment_extraction.2.2 "https://example.org/slides.pdf#page=2" "page=2"
      2 300 ⟨10, 612⟩ none rfl rfl (by decide) (by decide)

/-- C4: every fatal content error — an error cache entry (fetch
failure), an unknown slide reference in an HTML deck, or an
unrecognized PDF fragment — makes `#render` install terminal fallback
content: the host's pre-existing inner markup (trimmed) when nonempty,
else a hyperlink to the resolved source URL; and a cycle whose render
has completed still settles regardless of that outcome: the finishing
step sets `aria-busy` to false, sets `loaded` and fires the `load`
event. -/
theorem fatal_error_fallback_settles :
    (∀ (src inner : String) (w : ℚ) (m : String) (dims : Option (Nat × Nat)),
      renderOutcome src inner w (some (.error m)) dims
        = .fallback (fallbackMarkup src inner))
    ∧ (∀ (src inner : String) (w : ℚ) (doc : HtmlDoc) (dims : Option (Nat × Nat)),
        extractSlide doc.slides (fragOf src) = none →
        renderOutcome src inner w (some (.shower doc)) dims
          = .fallback (fallbackMarkup src inner))
    ∧ (∀ (src sid inner : String) (w : ℚ) (doc : PdfDoc) (dims : Option (Nat × Nat)),
        fragOf src = some sid → parsePDFFragment sid = none →
        renderOutcome src inner w (some (.pdf doc)) dims
          = .fallback (fallbackMarkup src inner))
    ∧ (∀ src : String, fallbackMarkup src "" = linkMarkup src)
    ∧ (∀ src inner : String, jsTrim inner ≠ "" → fallbackMarkup src inner = jsTrim inner)
    ∧ (∀ (s : InstState) (i : Nat) (sr : String),
        s.cycles.get? i = some (.rendered sr) → s.planned = false →
        s.renderCycleID = i + 1 →
        ∃ t, IStep s t ∧ t.ariaBusy = some false ∧ t.loaded = true ∧
          (i + 1, i + 1) ∈ t.loadLog ∧ t.cycles.get? i = some (.finished sr)) := by
  refine ⟨?_, ?_, ?_, ?_, ?_, ?_⟩
  · intro src inner w m dims
    rfl
  · intro src inner w doc dims hev
    simp [renderOutcome, renderTry, hev]
  · intro src sid inner w doc dims hfrag hparse
    simp [renderOutcome, renderTry, hfrag, hparse]
  · intro src
    rfl
  · intro src inner h
    simp [fallbackMarkup, h]
  · intro s i sr h hpl hid
    have hi : i < s.cycles.length := lt_of_get?_eq_some h
    refine ⟨_, IStep.finishOk s i sr h hpl hid, rfl, rfl, ?_, ?_⟩
    · refine List.mem_append.mpr (Or.inr ?_)
      rw [hid]
      exact List.mem_singleton.mpr rfl
    · exact get?_set_self _ _ _ hi

/-- Render-completed state of a cycle that drew the fallback for the
404 on `missing.pdf`. -/
def c4RenderedState : InstState :=
  { planned := false, renderCycleID := 1, src := "https://example.org/missing.pdf",
    ariaBusy := some true, loaded := false,
    cycles := [.rendered "https://example.org/missing.pdf"], loadLog := [] }

theorem fatal_error_fallback_settles_witness :
    renderOutcome "https://example.org/missing.pdf" "" 300
        (some (fetchOutcome "https://example.org/missing.pdf" none env404)) none
      = .fallback (linkMarkup "https://example.org/missing.pdf")
    ∧ ∃ t, IStep c4RenderedState t ∧ t.ariaBusy = some false ∧ t.loaded = true ∧
        (1, 1) ∈ t.loadLog ∧
        t.cycles.get? 0 = some (.finished "https://example.org/missing.pdf") := by
  constructor
  · show renderOutcome "https://example.org/missing.pdf" "" 300
        (some (.error (httpErrorMessage "https://example.org/missing.pdf" 404))) none
      = .fallback (linkMarkup "https://example.org/missing.pdf")
    rw [fatal_error_fallback_settles.1 "https://example.org/missing.pdf" "" 300
      (httpErrorMessage "https://example.org/missing.pdf" 404) none]
    rw [fatal_error_fallback_settles.2.2.2.1 "https://example.org/missing.pdf"]
  · exact fatal_error_fallback_settles.2.2.2.2.2 c4RenderedState 0
      "https://example.org/missing.pdf" rfl rfl rfl
